import Mathlib

/-!
# Loom memory allocation API: the typed array layer

A shallow embedding of the C++ part of `loom/common/core/allocator.h`
(`ArrayAlloc`, `loom_constructInPlace`, `loom_destructInPlace`,
`loom_newArray_inject`, `loom_newArray_alloc`, `loom_newArray_calloc`,
`loom_newArray`, `loom_deleteArray`).

Conventions of the embedding:

* a pointer and a `size_t` are natural numbers below `2 ^ w`, where `w` is the
  bit width of `size_t` on the target; `size_t` arithmetic is taken modulo
  `2 ^ w`; the null pointer is `0`;
* an `unsigned int` is a natural number below `2 ^ 32`;
* memory is a map from addresses to bytes;
* the calls that leave the header (allocator entry points, constructors and
  destructors of the element type) are recorded, in order, in a trace.
-/

namespace Loom

/-! ## Machine arithmetic -/

/-- Byte-addressed memory: the byte stored at each address. -/
abbrev Mem := Nat → Nat

/-- Addition of two `size_t` values on a target whose `size_t` has `w` bits. -/
def sizeAdd (w a b : Nat) : Nat := (a + b) % 2 ^ w

/-- Subtraction of two `size_t` values on a target whose `size_t` has `w` bits. -/
def sizeSub (w a b : Nat) : Nat := (a + (2 ^ w - b % 2 ^ w)) % 2 ^ w

/-- Multiplication of two `size_t` values on a target whose `size_t` has `w` bits. -/
def sizeMul (w a b : Nat) : Nat := (a * b) % 2 ^ w

/-- Number of values of an `unsigned int` (32 bits on every Loom target). -/
def UINT_RANGE : Nat := 2 ^ 32

/-- Store of an `unsigned int` through a pointer: `*(unsigned int*)addr = v`.
The four bytes at `addr` receive the value, least significant byte first. -/
def storeUInt (m : Mem) (addr v : Nat) : Mem := fun x =>
  if x = addr then v % 256
  else if x = addr + 1 then v / 256 % 256
  else if x = addr + 2 then v / 65536 % 256
  else if x = addr + 3 then v / 16777216 % 256
  else m x

/-- Load of an `unsigned int` through a pointer: `*(unsigned int*)addr`. -/
def loadUInt (m : Mem) (addr : Nat) : Nat :=
  m addr % 256 + m (addr + 1) % 256 * 256 + m (addr + 2) % 256 * 65536
    + m (addr + 3) % 256 * 16777216

/-- Memory with the `len` bytes starting at `addr` set to zero. -/
def zeroFill (m : Mem) (addr len : Nat) : Mem := fun x =>
  if addr ≤ x ∧ x < addr + len then 0 else m x

/-- Memory with the `len` bytes of the object at `addr` replaced by `bytes`
(indexed by the offset inside the object). -/
def writeObject (m : Mem) (addr len : Nat) (bytes : Nat → Nat) : Mem := fun x =>
  if addr ≤ x ∧ x < addr + len then bytes (x - addr) else m x

/-! ## Constants of the header -/

/-- The alignment mask: `#define LOOM_ALLOCATOR_ALIGN_MASK (8-1)`. -/
def LOOM_ALLOCATOR_ALIGN_MASK : Nat := 8 - 1

/-- The size of the array metadata: `#define LOOM_ALLOCATOR_METADATA_SIZE 16`. -/
def LOOM_ALLOCATOR_METADATA_SIZE : Nat := 16

/-! ## Element types -/

/-- The C++ types an array can be instantiated at: the types `ArrayAlloc`
is specialised for, `float`, and class types (by name). -/
inductive CType where
  | pointer (pointee : CType)
  | bool
  | char
  | wchar_t
  | signedChar
  | shortInt
  | int
  | longInt
  | longLongInt
  | unsignedChar
  | unsignedShortInt
  | unsignedInt
  | unsignedLongInt
  | unsignedLongLongInt
  | float
  | double
  | longDouble
  | classType (name : String)
  deriving DecidableEq, Repr

/-- The member `ArrayAlloc<T>::fundamental`: the primary template gives
`false`, the partial specialisation for `T*` and the full specialisations
give `true`. -/
def ArrayAlloc.fundamental : CType → Bool
  | .pointer _ => true
  | .bool => true
  | .char => true
  | .wchar_t => true
  | .signedChar => true
  | .shortInt => true
  | .int => true
  | .longInt => true
  | .longLongInt => true
  | .unsignedChar => true
  | .unsignedShortInt => true
  | .unsignedInt => true
  | .unsignedLongInt => true
  | .unsignedLongLongInt => true
  | .double => true
  | .longDouble => true
  | _ => false

/-- What the array layer uses of its template parameter `T`: the type itself,
`sizeof(T)`, and the effect on memory of the default constructor `T()` and of
the destructor `~T()`. Each of the two receives the address of the object and
the memory before the call and gives the bytes of the object after the call,
by offset: a constructor or destructor rewrites its own object only. -/
structure ElemType where
  ty : CType
  sizeOf : Nat
  ctor : Nat → Mem → Nat → Nat
  dtor : Nat → Mem → Nat → Nat

/-! ## State -/

/-- The calls the array layer makes outside the header, as they appear in
allocator.h: the allocation macros with their arguments, and the constructor
and destructor of the element type with the address of the object. -/
inductive Event where
  | lmAlloc (allocator size : Nat)
  | lmCalloc (allocator count size : Nat)
  | lmFree (allocator ptr : Nat)
  | construct (addr : Nat)
  | destruct (addr : Nat)
  deriving DecidableEq, Repr

/-- The state the array layer runs in: the memory and the calls made so far,
oldest first. -/
structure World where
  mem : Mem
  trace : List Event

/-- Result of a function that may fail an assertion: the value returned and
the state after the call, or the state at the failed assertion. -/
inductive Outcome (α : Type) where
  | ok (val : α) (σ : World)
  | assertFailed (σ : World)

/-- The state a call ends in, whether it returned or failed an assertion. -/
def Outcome.world {α : Type} : Outcome α → World
  | .ok _ σ => σ
  | .assertFailed σ => σ

/-- The value a call returns, `none` when it failed an assertion. -/
def Outcome.value {α : Type} : Outcome α → Option α
  | .ok v _ => some v
  | .assertFailed _ => none

/-! ## Allocation entry points -/

/-- Modelled from the spec: `lmSafeAssert` is a macro of
loom/common/core/assert.h, which is not among the sources. A violation
"produces an explicit assertion/abort": the run stops in the state it had
when the condition was found false. -/
def lmSafeAssert {α : Type} (condition : Bool) (σ : World) (rest : World → Outcome α) :
    Outcome α :=
  if condition then rest σ else Outcome.assertFailed σ

/-- Modelled from the spec: `lmAlloc(allocator, size)` expands to
`lmAlloc_inner`, declared in allocator.h and defined outside the sources.
`allocate(allocator, size)` returns a block of at least `size` bytes, or null.
The address the allocator hands back is the argument `blk`; the contents of
the block are whatever the memory held. -/
def lmAlloc (allocator size blk : Nat) (σ : World) : Nat × World :=
  (blk, { σ with trace := σ.trace ++ [Event.lmAlloc allocator size] })

/-- Modelled from the spec: `lmCalloc(allocator, count, size)` expands to
`lmCalloc_inner`, declared in allocator.h and defined outside the sources.
`callocate(allocator, count, size)` returns a zero-initialized block of
`count * size` bytes, or null. The address the allocator hands back is the
argument `blk`. -/
def lmCalloc (allocator count size blk : Nat) (σ : World) : Nat × World :=
  (blk, { mem := if blk = 0 then σ.mem else zeroFill σ.mem blk (count * size),
          trace := σ.trace ++ [Event.lmCalloc allocator count size] })

/-- Modelled from the spec: `lmFree(allocator, ptr)` expands to `lmFree_inner`,
declared in allocator.h and defined outside the sources. The call hands the
block at `ptr` back to the allocator. -/
def lmFree (allocator ptr : Nat) (σ : World) : World :=
  { σ with trace := σ.trace ++ [Event.lmFree allocator ptr] }

/-! ## The C++ allocation API -/

/-- `loom_constructInPlace<T>(memory)`: `return new (memory) T();`. -/
def loom_constructInPlace (T : ElemType) (memory : Nat) (σ : World) : Nat × World :=
  (memory, { mem := writeObject σ.mem memory T.sizeOf (T.ctor memory σ.mem),
             trace := σ.trace ++ [Event.construct memory] })

/-- `loom_destructInPlace<T>(t)`: null is returned as it is, otherwise the
destructor runs and `t` is returned. -/
def loom_destructInPlace (T : ElemType) (t : Nat) (σ : World) : Nat × World :=
  if t = 0 then (0, σ)
  else (t, { mem := writeObject σ.mem t T.sizeOf (T.dtor t σ.mem),
             trace := σ.trace ++ [Event.destruct t] })

/-- The address `&arr[i]` of element `i` of an array of `T` at `arr`. -/
def elemAddr (w : Nat) (T : ElemType) (arr i : Nat) : Nat :=
  sizeAdd w arr (sizeMul w i T.sizeOf)

/-- `loom_newArray_inject<T>(arr, nr)`: asserts that the block is not null,
stores `nr` at its start and returns the address `LOOM_ALLOCATOR_METADATA_SIZE`
bytes further. -/
def loom_newArray_inject (w : Nat) (_T : ElemType) (arr nr : Nat) (σ : World) : Outcome Nat :=
  lmSafeAssert (decide (arr ≠ 0)) σ fun σ =>
    let σ1 : World := { σ with mem := storeUInt σ.mem arr nr }
    let arr1 := sizeAdd w arr LOOM_ALLOCATOR_METADATA_SIZE
    Outcome.ok arr1 σ1

/-- `loom_newArray_alloc<T>(allocator, nr)`. -/
def loom_newArray_alloc (w : Nat) (T : ElemType) (allocator nr blk : Nat) (σ : World) :
    Outcome Nat :=
  let r := lmAlloc allocator
    (sizeAdd w LOOM_ALLOCATOR_METADATA_SIZE (sizeMul w nr T.sizeOf)) blk σ
  loom_newArray_inject w T r.1 nr r.2

/-- `loom_newArray_calloc<T>(allocator, nr)`. -/
def loom_newArray_calloc (w : Nat) (T : ElemType) (allocator nr blk : Nat) (σ : World) :
    Outcome Nat :=
  let r := lmCalloc allocator 1
    (sizeAdd w LOOM_ALLOCATOR_METADATA_SIZE (sizeMul w nr T.sizeOf)) blk σ
  loom_newArray_inject w T r.1 nr r.2

/-- The loop of `loom_newArray`:
`for (unsigned int i = 0; i < nr; i++) loom_constructInPlace<T>(&(arr[i]));`. -/
def loom_newArray.loop (w : Nat) (T : ElemType) (arr nr : Nat) (σ : World) : World :=
  (List.range nr).foldl (fun s i => (loom_constructInPlace T (elemAddr w T arr i) s).2) σ

/-- `loom_newArray<T>(allocator, nr)`. -/
def loom_newArray (w : Nat) (T : ElemType) (allocator nr blk : Nat) (σ : World) : Outcome Nat :=
  if ArrayAlloc.fundamental T.ty then
    loom_newArray_calloc w T allocator nr blk σ
  else
    match loom_newArray_alloc w T allocator nr blk σ with
    | Outcome.ok arr σ1 => Outcome.ok arr (loom_newArray.loop w T arr nr σ1)
    | Outcome.assertFailed σ1 => Outcome.assertFailed σ1

/-- The loop of `loom_deleteArray`:
`while (nr > 0) { nr--; loom_destructInPlace<T>(&arr[nr]); }`. -/
def loom_deleteArray.loop (w : Nat) (T : ElemType) (arr : Nat) : Nat → World → World
  | 0, σ => σ
  | nr + 1, σ => loom_deleteArray.loop w T arr nr (loom_destructInPlace T (elemAddr w T arr nr) σ).2

/-- `loom_deleteArray<T>(allocator, arr)`. -/
def loom_deleteArray (w : Nat) (T : ElemType) (allocator arr : Nat) (σ : World) : World :=
  if arr = 0 then σ
  else
    let fullArray := sizeSub w arr LOOM_ALLOCATOR_METADATA_SIZE
    let nr := loadUInt σ.mem fullArray
    let σ1 := if !ArrayAlloc.fundamental T.ty then loom_deleteArray.loop w T arr nr σ else σ
    lmFree allocator fullArray σ1

/-! ## Sample inputs -/

/-- A class type of eight bytes whose constructor fills its object with `0xAB`
and whose destructor fills it with `0xDD`. -/
def sampleClass : ElemType :=
  { ty := CType.classType "Widget", sizeOf := 8,
    ctor := fun _ _ _ => 0xAB, dtor := fun _ _ _ => 0xDD }

/-- The type `int`, four bytes. -/
def sampleInt : ElemType :=
  { ty := CType.int, sizeOf := 4, ctor := fun _ _ _ => 0, dtor := fun t m k => m (t + k) }

/-- The type `float`, four bytes; `new (memory) float()` gives zero. -/
def sampleFloat : ElemType :=
  { ty := CType.float, sizeOf := 4, ctor := fun _ _ _ => 0, dtor := fun t m k => m (t + k) }

/-- A class type of `2 ^ 33` bytes, such as a struct holding an 8 GiB buffer
on a target with a 64-bit `size_t`. -/
def sampleHuge : ElemType :=
  { ty := CType.classType "Buffer", sizeOf := 2 ^ 33,
    ctor := fun _ _ _ => 0, dtor := fun _ _ _ => 0 }

/-- A state with no call made yet and every byte of memory holding `0xFF`. -/
def dirtyWorld : World := { mem := fun _ => 0xFF, trace := [] }

/-! ## Deletion macros -/

/-- The size in bytes of an `unsigned int`, `sizeof(unsigned int)`: the number
of bytes `storeUInt` writes and `loadUInt` reads. -/
def SIZEOF_UINT : Nat := 4

/-- The macro `lmDelete(allocator, obj)`:
`{ lmFree(allocator, loom_destructInPlace(obj)); }`. -/
def lmDelete (T : ElemType) (allocator obj : Nat) (σ : World) : World :=
  let r := loom_destructInPlace T obj σ
  lmFree allocator r.1 r.2

/-- The macro `lmSafeDelete(allocator, obj)`:
`if (obj) { lmFree(allocator, loom_destructInPlace(obj)); obj = NULL; }`.
The first component is the value of the variable `obj` after the statement. -/
def lmSafeDelete (T : ElemType) (allocator obj : Nat) (σ : World) : Nat × World :=
  if obj ≠ 0 then
    let r := loom_destructInPlace T obj σ
    (0, lmFree allocator r.1 r.2)
  else (obj, σ)

/-! ## utByteArray (`loom/common/utils/utByteArray.h`)

`UTsize` is a typedef of utTypes.h, which is not among the sources; the class
passes it through `unsigned int` in `setPosition`, `getPosition` and
`bytesAvailable`, and it is taken to be `unsigned int`: a `UTsize` is a natural
number below `UINT_RANGE`. A scalar of `k` bytes is the natural number below
`256 ^ k` that its bits spell. -/

/-- The bit width of the type in which a `UTsize` and a `size_t` are added or
subtracted (the wider of the two), on a target whose `size_t` has `w` bits. -/
def wideBits (w : Nat) : Nat := max 32 w

/-- The class `utByteArray`: the bytes of `_data` (a `utArray<unsigned char>`)
and `_position`. -/
structure utByteArray where
  _data : List Nat
  _position : Nat
  deriving DecidableEq, Repr

/-- The method `utArray<unsigned char>::resize(nr)`, of a header that is not
among the sources: the first `min(size, nr)` bytes are kept and the size
becomes `nr`; the bytes added are whatever the new storage holds, given by
`fill` for each index. -/
def utArray.resize (fill : Nat → Nat) (d : List Nat) (nr : Nat) : List Nat :=
  d.take nr ++ (List.range (nr - d.length)).map (fun j => fill (d.length + j))

/-- The byte the pointer `&_data[i]` points at: byte `i` of the array, or for
an index outside the array whatever the memory holds there, given by `fill`. -/
def byteAt (fill : Nat → Nat) (d : List Nat) (i : Nat) : Nat := d.getD i (fill i)

/-- The `k` bytes of the scalar `v`, least significant byte first. -/
def toBytesLE (k v : Nat) : List Nat := (List.range k).map (fun i => v / 256 ^ i % 256)

/-- The scalar spelled by bytes given least significant byte first. -/
def fromBytesLE (bs : List Nat) : Nat := bs.foldr (fun b acc => b % 256 + 256 * acc) 0

/-- The object representation of the `k`-byte scalar `v` on the host: its
bytes by increasing address, most significant first on a big-endian host. -/
def objectBytes (bigEndian : Bool) (k v : Nat) : List Nat :=
  if bigEndian then (toBytesLE k v).reverse else toBytesLE k v

/-- The scalar whose object representation on the host is `bs`. -/
def objectValue (bigEndian : Bool) (bs : List Nat) : Nat :=
  if bigEndian then fromBytesLE bs.reverse else fromBytesLE bs

/-- The scalar with the bytes of the `k`-byte scalar `v` in reverse order. -/
def byteSwap (k v : Nat) : Nat := fromBytesLE (toBytesLE k v).reverse

/-- The function `convertHostToLEndian`, defined outside the sources: the
identity on a little-endian host, a byte swap on a big-endian host. -/
def convertHostToLEndian (bigEndian : Bool) (k v : Nat) : Nat :=
  if bigEndian then byteSwap k v else v

/-- The function `convertLEndianToHost`, defined outside the sources: the
identity on a little-endian host, a byte swap on a big-endian host. -/
def convertLEndianToHost (bigEndian : Bool) (k v : Nat) : Nat :=
  if bigEndian then byteSwap k v else v

/-- The macro `lmAssert` of loom/common/core/assert.h (not among the sources)
and the standard `assert`: when the condition is false the run stops, which
is the result `none`. -/
def lmAssert {α : Type} (condition : Bool) (rest : Option α) : Option α :=
  if condition then rest else none

/-- `utByteArray::memcpyUnaligned(destination, source, num)`: byte `i` of the
source goes to byte `i` of the destination, for `i` from 0 to `num - 1`. The
destination pointer is `offset` bytes into the buffer `destination`; a byte
aimed outside the buffer is not part of the buffer afterwards. -/
def memcpyUnaligned (destination : List Nat) (offset : Nat) (source : Nat → Nat) (num : Nat) :
    List Nat :=
  (List.range num).foldl (fun d i => d.set (offset + i) (source i)) destination

/-- `utByteArray::readValue<T>()` for a scalar type of `k = sizeof(T)` bytes:
`none` when the assertion fails, otherwise the value and the array after the
call. -/
def utByteArray.readValue (w : Nat) (bigEndian : Bool) (fill : Nat → Nat) (k : Nat)
    (a : utByteArray) : Option (Nat × utByteArray) :=
  lmAssert (decide (a._position ≤ sizeSub (wideBits w) a._data.length k))
    (let raw := memcpyUnaligned (List.replicate k 0) 0
        (fun i => byteAt fill a._data (a._position + i)) k
     let value := objectValue bigEndian raw
     let a1 : utByteArray := { a with _position := (a._position + k) % UINT_RANGE }
     some (convertLEndianToHost bigEndian k value, a1))

/-- `utByteArray::writeValue<T>(value)` for a scalar type of `k = sizeof(T)`
bytes. -/
def utByteArray.writeValue (w : Nat) (bigEndian : Bool) (fill : Nat → Nat) (k value : Nat)
    (a : utByteArray) : utByteArray :=
  let need := sizeAdd (wideBits w) a._position k
  let data1 := if a._data.length < need then utArray.resize fill a._data (need % UINT_RANGE)
    else a._data
  let value1 := convertHostToLEndian bigEndian k value
  let data2 := memcpyUnaligned data1 a._position
    (fun i => (objectBytes bigEndian k value1).getD i 0) k
  { _data := data2, _position := (a._position + k) % UINT_RANGE }

/-- `utByteArray::setPosition(value)`. -/
def utByteArray.setPosition (a : utByteArray) (value : Nat) : utByteArray :=
  { a with _position := value }

/-- `utByteArray::getPosition()`. -/
def utByteArray.getPosition (a : utByteArray) : Nat := a._position

/-- `utByteArray::getSize()`. -/
def utByteArray.getSize (a : utByteArray) : Nat := a._data.length

/-- `utByteArray::resize(size)`. -/
def utByteArray.resize (fill : Nat → Nat) (a : utByteArray) (size : Nat) : utByteArray :=
  { _position := if a._position > size then size else a._position,
    _data := utArray.resize fill a._data size }

/-- The function `strlen`: the number of bytes before the first zero byte of
a string given by its bytes. -/
def strlen (value : List Nat) : Nat := (value.takeWhile (fun c => c ≠ 0)).length

/-- `utByteArray::writeUTFInternal(value, length)`. -/
def utByteArray.writeUTFInternal (fill : Nat → Nat) (value : List Nat) (length : Nat)
    (a : utByteArray) : utByteArray :=
  if length = 0 then a
  else
    let need := (a._position + length) % UINT_RANGE
    let data1 := if a._data.length < need then utArray.resize fill a._data need else a._data
    let data2 := memcpyUnaligned data1 a._position (fun i => value.getD i 0) length
    { _data := data2, _position := (a._position + length) % UINT_RANGE }

/-- `utByteArray::writeUTF(value)`; a null `value` is `none`. The result is
`none` when the assertion on the length fails. -/
def utByteArray.writeUTF (w : Nat) (bigEndian : Bool) (fill : Nat → Nat)
    (value : Option (List Nat)) (a : utByteArray) : Option utByteArray :=
  match value with
  | none => some (utByteArray.writeValue w bigEndian fill 2 0 a)
  | some s =>
    let length := strlen s % UINT_RANGE
    lmAssert (decide (length < 0xFFFF))
      (let a1 := utByteArray.writeValue w bigEndian fill 2 (length % 65536) a
       some (utByteArray.writeUTFInternal fill s length a1))

/-! ## Allocator implementations

The allocators behind the interface (tracking proxy, fixed pool, arena
proxy, global heap) are declared in allocator.h and defined in allocator.c,
which is not among the sources: they are modelled from the design document.
Sizes and counters are natural numbers. The hidden metadata of an allocation
is kept in a table keyed by the pointer handed to the caller. The address a
parent hands back for a request is an argument of the call (`blk`). -/

/-- The size in bytes of a `size_t`, one word, on a target whose `size_t` has
`w` bits. -/
def sizeofSizeT (w : Nat) : Nat := w / 8

/-- The size in bytes of a pointer on a target whose `size_t` has `w` bits. -/
def sizeofPtr (w : Nat) : Nat := w / 8

/-- The value stored under the first entry of a table with key `k`. -/
def findKey (k : Nat) : List (Nat × Nat) → Option Nat
  | [] => none
  | e :: l => if e.1 = k then some e.2 else findKey k l

/-- The table without its first entry with key `k`. -/
def removeKey (k : Nat) : List (Nat × Nat) → List (Nat × Nat)
  | [] => []
  | e :: l => if e.1 = k then l else e :: removeKey k l

/-- A call an allocator makes on its parent, with the address handed back for
an allocation or a reallocation. -/
inductive ParentCall where
  | allocate (size blk : Nat)
  | free (ptr : Nat)
  | reallocate (ptr size blk : Nat)
  deriving DecidableEq, Repr

/-- A call made on an allocator by its user: `allocate(size)`, `free(ptr)` or
`reallocate(ptr, newSize)`; `blk` is the address the parent hands back. -/
inductive AllocOp where
  | allocate (size blk : Nat)
  | free (ptr : Nat)
  | reallocate (ptr newSize blk : Nat)
  deriving DecidableEq, Repr

/-- Modelled from the spec: the Tracking Proxy Allocator, "attributes: `parent`,
running `allocatedBytes`, running `allocatedCount`. Each allocation stores a
hidden prefix of one word-size holding the requested size". `hidden` is the
table of those prefixes, by pointer handed out; `parentCalls` are the calls
delegated to the parent, oldest first. -/
structure TrackerProxy where
  allocatedBytes : Nat
  allocatedCount : Nat
  hidden : List (Nat × Nat)
  parentCalls : List ParentCall
  deriving DecidableEq, Repr

/-- Modelled from the spec: `loom_allocator_initializeTrackerProxyAllocator`,
a fresh tracking proxy: no allocation outstanding, both counters zero. -/
def loom_allocator_initializeTrackerProxyAllocator : TrackerProxy :=
  { allocatedBytes := 0, allocatedCount := 0, hidden := [], parentCalls := [] }

/-- Modelled from the spec: `loom_allocator_getTrackerProxyStats`, "a query
entry point returns the current `(allocatedBytes, allocatedCount)` pair". -/
def loom_allocator_getTrackerProxyStats (t : TrackerProxy) : Nat × Nat :=
  (t.allocatedBytes, t.allocatedCount)

/-- Modelled from the spec: the tracking proxy's `allocate(size)` "requests
`size + sizeof(word)` from `parent`, stores `size` in the prefix, increments
`allocatedCount`, adds `size` to `allocatedBytes`, returns pointer past the
prefix". The result is `none` when the parent has no memory (`blk` null),
which is fatal. -/
def TrackerProxy.allocCall (w : Nat) (t : TrackerProxy) (size blk : Nat) :
    Option (Nat × TrackerProxy) :=
  if blk = 0 then none
  else
    let ptr := blk + sizeofSizeT w
    some (ptr, { allocatedBytes := t.allocatedBytes + size,
                 allocatedCount := t.allocatedCount + 1,
                 hidden := (ptr, size) :: t.hidden,
                 parentCalls := t.parentCalls
                   ++ [ParentCall.allocate (size + sizeofSizeT w) blk] })

/-- Modelled from the spec: the tracking proxy's `free(ptr)` "reads the prefix
to recover `size`, decrements counters symmetrically, delegates to `parent`'s
free"; "freeing a null pointer is a no-op; freeing a foreign pointer is
undefined" (the result `none`). -/
def TrackerProxy.freeCall (w : Nat) (t : TrackerProxy) (ptr : Nat) : Option TrackerProxy :=
  if ptr = 0 then some t
  else
    match findKey ptr t.hidden with
    | none => none
    | some size =>
      some { allocatedBytes := t.allocatedBytes - size,
             allocatedCount := t.allocatedCount - 1,
             hidden := removeKey ptr t.hidden,
             parentCalls := t.parentCalls ++ [ParentCall.free (ptr - sizeofSizeT w)] }

/-- Modelled from the spec: the tracking proxy's `reallocate(ptr, newSize)`
"reads old size from prefix, adjusts `allocatedBytes` by the delta, delegates
to `parent`'s reallocate with `newSize + sizeof(word)`, rewrites the prefix";
"passing a null `ptr` behaves like `allocate`". -/
def TrackerProxy.reallocCall (w : Nat) (t : TrackerProxy) (ptr newSize blk : Nat) :
    Option (Nat × TrackerProxy) :=
  if ptr = 0 then TrackerProxy.allocCall w t newSize blk
  else
    match findKey ptr t.hidden with
    | none => none
    | some oldSize =>
      if blk = 0 then none
      else
        let ptr1 := blk + sizeofSizeT w
        some (ptr1, { allocatedBytes := t.allocatedBytes + newSize - oldSize,
                      allocatedCount := t.allocatedCount,
                      hidden := (ptr1, newSize) :: removeKey ptr t.hidden,
                      parentCalls := t.parentCalls
                        ++ [ParentCall.reallocate (ptr - sizeofSizeT w)
                              (newSize + sizeofSizeT w) blk] })

/-- One call on a tracking proxy; the pointer returned is dropped. -/
def TrackerProxy.step (w : Nat) (t : TrackerProxy) : AllocOp → Option TrackerProxy
  | AllocOp.allocate size blk => (TrackerProxy.allocCall w t size blk).map Prod.snd
  | AllocOp.free ptr => TrackerProxy.freeCall w t ptr
  | AllocOp.reallocate ptr newSize blk =>
    (TrackerProxy.reallocCall w t ptr newSize blk).map Prod.snd

/-- A sequence of calls on a tracking proxy, in order; `none` as soon as a call
is fatal or undefined. -/
def TrackerProxy.run (w : Nat) : List AllocOp → TrackerProxy → Option TrackerProxy
  | [], t => some t
  | op :: ops, t =>
    match TrackerProxy.step w t op with
    | none => none
    | some t1 => TrackerProxy.run w ops t1

/-- The reference set of a sequence of calls: the allocations outstanding
after it, each with the pointer handed out and the size last requested for
it, computed from the calls alone. -/
def outstanding (w : Nat) : List AllocOp → List (Nat × Nat) → List (Nat × Nat)
  | [], live => live
  | AllocOp.allocate size blk :: ops, live =>
    outstanding w ops ((blk + sizeofSizeT w, size) :: live)
  | AllocOp.free ptr :: ops, live =>
    outstanding w ops (if ptr = 0 then live else removeKey ptr live)
  | AllocOp.reallocate ptr newSize blk :: ops, live =>
    outstanding w ops
      (if ptr = 0 then (blk + sizeofSizeT w, newSize) :: live
       else (blk + sizeofSizeT w, newSize) :: removeKey ptr live)

/-- The sum of the sizes of a table of allocations. -/
def totalSize (live : List (Nat × Nat)) : Nat := (live.map Prod.snd).sum

/-- Modelled from the spec: the Fixed Pool Allocator, "attributes: `itemSize`,
`itemCount`, a free-list of slot indices or pointers, and the single backing
block obtained from `parent` at construction". `freeList` holds the indices of
the free slots, the next one to hand out first. -/
structure FixedPool where
  block : Nat
  itemSize : Nat
  itemCount : Nat
  freeList : List Nat
  deriving DecidableEq, Repr

/-- Modelled from the spec: `loom_allocator_initializeFixedPoolAllocator`,
"constructed with `(parent, itemSize, itemCount)`: obtains one block of
`itemSize*itemCount` bytes from `parent`, builds a free-slot list". The block
the parent hands back is `blk`; the first component is the call made on the
parent. -/
def loom_allocator_initializeFixedPoolAllocator (itemSize itemCount blk : Nat) :
    Option (ParentCall × FixedPool) :=
  if blk = 0 then none
  else some (ParentCall.allocate (itemSize * itemCount) blk,
             { block := blk, itemSize := itemSize, itemCount := itemCount,
               freeList := List.range itemCount })

/-- The address of slot `slot` of a fixed pool. -/
def FixedPool.slotAddr (p : FixedPool) (slot : Nat) : Nat := p.block + slot * p.itemSize

/-- Modelled from the spec: the fixed pool's `allocate(size)` "requires
`size <= itemSize`; returns the next free slot or fails if the pool is
exhausted", the failure being "a null result". A request larger than
`itemSize` breaks the contract (the result `none`). -/
def FixedPool.allocCall (p : FixedPool) (size : Nat) : Option (Nat × FixedPool) :=
  if size ≤ p.itemSize then
    match p.freeList with
    | [] => some (0, p)
    | slot :: rest => some (p.slotAddr slot, { p with freeList := rest })
  else none

/-- Modelled from the spec: the fixed pool's `free(ptr)` "validates that `ptr`
lies within the pool's range (assertion) and returns the slot to the free
list"; "freeing a null pointer is a no-op". -/
def FixedPool.freeCall (p : FixedPool) (ptr : Nat) : Option FixedPool :=
  if ptr = 0 then some p
  else if p.block ≤ ptr ∧ ptr < p.block + p.itemSize * p.itemCount then
    some { p with freeList := (ptr - p.block) / p.itemSize :: p.freeList }
  else none

/-- A run of allocations on a fixed pool, one per size of the list: the
pointers returned, in order, and the pool afterwards. -/
def FixedPool.allocMany : List Nat → FixedPool → Option (List Nat × FixedPool)
  | [], p => some ([], p)
  | size :: sizes, p =>
    match FixedPool.allocCall p size with
    | none => none
    | some (ptr, p1) =>
      match FixedPool.allocMany sizes p1 with
      | none => none
      | some (ptrs, p2) => some (ptr :: ptrs, p2)

/-- Modelled from the spec: the Arena Proxy Allocator, "attributes: `parent`,
and a circular/doubly-linked intrusive list of live allocation headers".
`control` is the arena's own control structure (its address at the parent),
`nodes` the headers of the live allocations, the head of the list first, and
`parent` the allocator it wraps, here a tracking proxy. -/
structure ArenaProxy where
  control : Nat
  nodes : List Nat
  parent : TrackerProxy
  deriving DecidableEq, Repr

/-- The size of the header an arena puts before each allocation: "adding
2*sizeof(void*) bytes to each allocation for a doubly linked list". -/
def arenaHeaderSize (w : Nat) : Nat := 2 * sizeofPtr w

/-- Modelled from the spec: `loom_allocator_initializeArenaProxyAllocator`;
an allocator is "allocated from the parent allocator", so the arena obtains
its control structure, of `controlSize` bytes, from `parent`; its list is
empty. -/
def loom_allocator_initializeArenaProxyAllocator (w : Nat) (parent : TrackerProxy)
    (controlSize blk : Nat) : Option ArenaProxy :=
  match TrackerProxy.allocCall w parent controlSize blk with
  | none => none
  | some (c, parent1) => some { control := c, nodes := [], parent := parent1 }

/-- Modelled from the spec: the arena's `allocate(size)` "requests `size +
header` from `parent`, initializes link fields, inserts at the head of the
intrusive list, returns a pointer offset past the header". -/
def ArenaProxy.allocCall (w : Nat) (a : ArenaProxy) (size blk : Nat) :
    Option (Nat × ArenaProxy) :=
  match TrackerProxy.allocCall w a.parent (size + arenaHeaderSize w) blk with
  | none => none
  | some (header, parent1) =>
    some (header + arenaHeaderSize w, { a with nodes := header :: a.nodes, parent := parent1 })

/-- Modelled from the spec: the arena's `free(ptr)` "recovers the header by
pointer arithmetic, unlinks it from the list, delegates the full block to
`parent`'s free"; a null pointer is a no-op, a pointer that is not in the list
is undefined (the result `none`). -/
def ArenaProxy.freeCall (w : Nat) (a : ArenaProxy) (ptr : Nat) : Option ArenaProxy :=
  if ptr = 0 then some a
  else
    let header := ptr - arenaHeaderSize w
    if header ∈ a.nodes then
      match TrackerProxy.freeCall w a.parent header with
      | none => none
      | some parent1 => some { a with nodes := a.nodes.erase header, parent := parent1 }
    else none

/-- The walk of `destroy` over the list of an arena: each remaining block is
delegated to the parent's free, head first. -/
def ArenaProxy.freeAll (w : Nat) : List Nat → TrackerProxy → Option TrackerProxy
  | [], parent => some parent
  | header :: rest, parent =>
    match TrackerProxy.freeCall w parent header with
    | none => none
    | some parent1 => ArenaProxy.freeAll w rest parent1

/-- Modelled from the spec: `loom_allocator_destroy` on an arena, "walks the
list from head to tail, delegating each remaining block to `parent`'s free
(regardless of whether the caller ever freed them individually), then frees
the arena's own control structure". The result is the parent afterwards. -/
def loom_allocator_destroy (w : Nat) (a : ArenaProxy) : Option TrackerProxy :=
  match ArenaProxy.freeAll w a.nodes a.parent with
  | none => none
  | some parent1 => TrackerProxy.freeCall w parent1 a.control

/-- One call on an arena: `allocate` or `free` (the design gives an arena no
`reallocate`, which is undefined here); the pointer returned is dropped. -/
def ArenaProxy.step (w : Nat) (a : ArenaProxy) : AllocOp → Option ArenaProxy
  | AllocOp.allocate size blk => (ArenaProxy.allocCall w a size blk).map Prod.snd
  | AllocOp.free ptr => ArenaProxy.freeCall w a ptr
  | AllocOp.reallocate _ _ _ => none

/-- A sequence of calls on an arena, in order; `none` as soon as a call is
fatal or undefined. -/
def ArenaProxy.run (w : Nat) : List AllocOp → ArenaProxy → Option ArenaProxy
  | [], a => some a
  | op :: ops, a =>
    match ArenaProxy.step w a op with
    | none => none
    | some a1 => ArenaProxy.run w ops a1

/-- The calls that allocate one block for each size of a list, the parent
handing back the matching address of `blks`. -/
def allocOps : List Nat → List Nat → List AllocOp
  | size :: sizes, blk :: blks => AllocOp.allocate size blk :: allocOps sizes blks
  | _, _ => []

/-- Modelled from the spec: the Global Heap Allocator, a "leaf implementation
backed by the process's raw allocation primitive"; its state is the table of
the blocks outstanding, address and size. -/
structure Heap where
  live : List (Nat × Nat)
  deriving DecidableEq, Repr

/-- Modelled from the spec: `allocate` on a heap "returns a block of at least
`size` bytes or fails with an out-of-memory condition" (the result `none`). -/
def Heap.allocCall (h : Heap) (size blk : Nat) : Option (Nat × Heap) :=
  if blk = 0 then none else some (blk, { live := (blk, size) :: h.live })

/-- Modelled from the spec: `free` on a heap "accepts a pointer previously
returned by `allocate`/`reallocate` on the same allocator instance; freeing a
null pointer is a no-op; freeing a foreign pointer is undefined". -/
def Heap.freeCall (h : Heap) (ptr : Nat) : Option Heap :=
  if ptr = 0 then some h
  else
    match findKey ptr h.live with
    | none => none
    | some _ => some { live := removeKey ptr h.live }

/-- Modelled from the spec: `reallocate` on a heap, "the returned pointer may
differ from `ptr`, and passing a null `ptr` behaves like `allocate`". -/
def Heap.reallocCall (h : Heap) (ptr newSize blk : Nat) : Option (Nat × Heap) :=
  if ptr = 0 then Heap.allocCall h newSize blk
  else
    match findKey ptr h.live with
    | none => none
    | some _ =>
      if blk = 0 then none else some (blk, { live := (blk, newSize) :: removeKey ptr h.live })

/-- The allocator an entry point works on: "passing a null allocator handle
to any entry point routes the operation to the process-wide global heap".
`globalHeap` is the handle `loom_allocator_getGlobalHeap()` returns. -/
def routeAllocator (globalHeap allocator : Nat) : Nat :=
  if allocator = 0 then globalHeap else allocator

/-- Modelled from the spec: the entry point `lmAlloc_inner(allocator, size,
file, line)`, declared in allocator.h; `rt` gives the state of the allocator
behind each handle. -/
def lmAlloc_inner (globalHeap : Nat) (rt : Nat → Heap) (allocator size blk : Nat) :
    Option (Nat × (Nat → Heap)) :=
  let a := routeAllocator globalHeap allocator
  match Heap.allocCall (rt a) size blk with
  | none => none
  | some (ptr, h) => some (ptr, Function.update rt a h)

/-- Modelled from the spec: the entry point `lmFree_inner(allocator, ptr, file,
line)`, declared in allocator.h. -/
def lmFree_inner (globalHeap : Nat) (rt : Nat → Heap) (allocator ptr : Nat) :
    Option (Nat → Heap) :=
  let a := routeAllocator globalHeap allocator
  match Heap.freeCall (rt a) ptr with
  | none => none
  | some h => some (Function.update rt a h)

/-- Modelled from the spec: the entry point `lmRealloc_inner(allocator, ptr,
size, file, line)`, declared in allocator.h. -/
def lmRealloc_inner (globalHeap : Nat) (rt : Nat → Heap) (allocator ptr size blk : Nat) :
    Option (Nat × (Nat → Heap)) :=
  let a := routeAllocator globalHeap allocator
  match Heap.reallocCall (rt a) ptr size blk with
  | none => none
  | some (ptr1, h) => some (ptr1, Function.update rt a h)

/-- A sequence of calls made through the entry points with one allocator
handle: the pointers returned by the allocations and reallocations, in order,
and the state of every allocator afterwards. -/
def runEntryPoints (globalHeap : Nat) (allocator : Nat) :
    List AllocOp → (Nat → Heap) → Option (List Nat × (Nat → Heap))
  | [], rt => some ([], rt)
  | AllocOp.allocate size blk :: ops, rt =>
    match lmAlloc_inner globalHeap rt allocator size blk with
    | none => none
    | some (ptr, rt1) =>
      (runEntryPoints globalHeap allocator ops rt1).map (fun r => (ptr :: r.1, r.2))
  | AllocOp.free ptr :: ops, rt =>
    match lmFree_inner globalHeap rt allocator ptr with
    | none => none
    | some rt1 => runEntryPoints globalHeap allocator ops rt1
  | AllocOp.reallocate ptr newSize blk :: ops, rt =>
    match lmRealloc_inner globalHeap rt allocator ptr newSize blk with
    | none => none
    | some (ptr1, rt1) =>
      (runEntryPoints globalHeap allocator ops rt1).map (fun r => (ptr1 :: r.1, r.2))

/-! ## Sample calls -/

/-- Two allocations, a reallocation of the first and a free of the second,
on a 64-bit target. -/
def sampleOps : List AllocOp :=
  [AllocOp.allocate 10 4096, AllocOp.allocate 20 8192,
   AllocOp.reallocate 4104 30 12288, AllocOp.free 8200]

/-- A fixed pool of four items of 32 bytes in the block at 4096. -/
def samplePool : FixedPool :=
  { block := 4096, itemSize := 32, itemCount := 4, freeList := [0, 1, 2, 3] }

/-- A tracking proxy with one allocation of 100 bytes outstanding. -/
def sampleTracker : TrackerProxy :=
  { allocatedBytes := 100, allocatedCount := 1, hidden := [(1032, 100)],
    parentCalls := [ParentCall.allocate 108 1024] }

/-- The link between an arena and the tracking proxy it was created on, with
`base` the proxy before the creation: the control structure and the headers
are not null; the parent's table is the entries of the live headers, in the
order of the list, then the control structure, then the entries of `base`;
and the parent's counters account for exactly these. -/
def ArenaProxy.Tracked (base : TrackerProxy) (controlSize : Nat) (a : ArenaProxy) : Prop :=
  a.control ≠ 0 ∧ (∀ h, h ∈ a.nodes → h ≠ 0) ∧
  ∃ entries : List (Nat × Nat), entries.map Prod.fst = a.nodes ∧
    a.parent.hidden = entries ++ (a.control, controlSize) :: base.hidden ∧
    a.parent.allocatedBytes = base.allocatedBytes + controlSize + totalSize entries ∧
    a.parent.allocatedCount = base.allocatedCount + 1 + entries.length

/-! ## Calls to the allocator in a trace -/

/-- Whether a call of the trace is a call to an allocator entry point
(`lmAlloc`, `lmCalloc` or `lmFree`). -/
def Event.isAllocatorCall : Event → Bool
  | Event.lmAlloc _ _ => true
  | Event.lmCalloc _ _ _ => true
  | Event.lmFree _ _ => true
  | Event.construct _ => false
  | Event.destruct _ => false

/-- The allocator handle a call to an allocator entry point was given. -/
def Event.allocator : Event → Option Nat
  | Event.lmAlloc allocator _ => some allocator
  | Event.lmCalloc allocator _ _ => some allocator
  | Event.lmFree allocator _ => some allocator
  | Event.construct _ => none
  | Event.destruct _ => none

/-- The macro `lmSafeFree(allocator, obj)`:
`if (obj) { lmFree(allocator, obj); obj = NULL; }`. The first component is the
value of the variable `obj` after the statement. -/
def lmSafeFree (allocator obj : Nat) (σ : World) : Nat × World :=
  if obj ≠ 0 then (0, lmFree allocator obj σ) else (obj, σ)

/-! ## utByteArray: strings and block copies

An `int` is an integer from `-2 ^ 31` up to `2 ^ 31 - 1`. A pointer to a
`utByteArray` is the address of the object (null is `0`); the objects are
given by a map from addresses, so that two pointers may name the same array.
A pointer into the bytes of an array is the offset from the start of the
array, and pointers into one array are compared by their offsets. -/

/-- The value of an integer converted to `int`: reduced modulo `2 ^ 32` into
the range of `int`. -/
def toInt32 (x : Int) : Int := (x + 2147483648) % 4294967296 - 2147483648

/-- The value of an `int` converted to `unsigned int` (or `UTsize`). -/
def intToUInt (x : Int) : Nat := (x % 4294967296).toNat

/-- The value of an `int` converted to `size_t` on a target whose `size_t` has
`w` bits. -/
def intToSizeT (w : Nat) (x : Int) : Nat := (x % (2 : Int) ^ w).toNat

/-- The template `utClamp<int>(v, a, b)` of utTypes.h, which is not among the
sources: `v` brought into the range from `a` to `b`. -/
def utClamp (v a b : Int) : Int := if v < a then a else if v > b then b else v

/-- The library function `memcpy(dst, src, num)`: `num` bytes of the source go
to the destination, `offset` bytes into the buffer `destination`. -/
def memcpy (destination : List Nat) (offset : Nat) (source : Nat → Nat) (num : Nat) :
    List Nat :=
  memcpyUnaligned destination offset source num

/-- `utByteArray::readString()`: `none` when an assertion fails, otherwise the
bytes copied into the string buffer `svalue` and the array after the call. The
class `utString` is not among the sources: `svalue.alloc(length)` is taken to
give a buffer for the `(size_t) length` bytes that are copied. -/
def utByteArray.readString (w : Nat) (bigEndian : Bool) (fill : Nat → Nat) (a : utByteArray) :
    Option (List Nat × utByteArray) :=
  match utByteArray.readValue w bigEndian fill 4 a with
  | none => none
  | some (v, a1) =>
    let length : Int := toInt32 (v : Int)
    if length = 0 then some ([], a1)
    else
      lmAssert (decide ((a1._position + intToUInt length) % UINT_RANGE ≤ a1._data.length))
        (let num := intToSizeT w length
         let svalue := memcpyUnaligned (List.replicate num 0) 0
           (fun i => byteAt fill a1._data (a1._position + i)) num
         some (svalue,
           { a1 with _position := (a1._position + intToUInt length) % UINT_RANGE }))

/-- `utByteArray::copyBytesInternal(dstByteArray, srcByteArray, offset, length,
dstOffset)`: the value returned and the objects after the call. The bytes are
read through the pointer `src` as computed before the destination is resized.
The result is `none` when `memcpy` is handed a pointer that lies before the
start of its array, an address the objects of the model do not reach: this
needs an array of `2 ^ 31` bytes or more, or a position of `2 ^ 31` or more. -/
def utByteArray.copyBytesInternal (w : Nat) (fill : Nat → Nat) (objs : Nat → utByteArray)
    (dstByteArray srcByteArray : Nat) (offset length : Int) (dstOffset : Bool) :
    Option (Int × (Nat → utByteArray)) :=
  if srcByteArray = 0 ∨ dstByteArray = 0 then some (0, objs)
  else
    let offset1 : Int := if offset < 0 then 0 else offset
    if length < 0 then some (0, objs)
    else
      let srcData := (objs srcByteArray)._data
      let dstSize : Int := (objs dstByteArray)._data.length
      let srcSize : Int := srcData.length
      let length1 : Int := if length = 0 then toInt32 srcSize else length
      let offset2 : Int :=
        if dstOffset then utClamp offset1 0 (toInt32 dstSize)
        else utClamp offset1 0 (toInt32 srcSize)
      let dst : Int := if dstOffset then offset2 else (objs dstByteArray)._position
      let src : Int := if dstOffset then (objs srcByteArray)._position else offset2
      let pastEnd : Bool := decide (src + length1 > srcSize)
      let length2 : Int := if pastEnd then toInt32 (srcSize - src) else length1
      if pastEnd ∧ length2 < 0 then some (0, objs)
      else
        let grow : Bool := decide (dst + length2 > dstSize)
        let off : Int := toInt32 dst
        let objs1 : Nat → utByteArray :=
          if grow then
            Function.update objs dstByteArray
              { objs dstByteArray with
                _data := utArray.resize fill (objs dstByteArray)._data
                  (intToUInt (dst + length2)) }
          else objs
        let dst1 : Int := if grow then off else dst
        if dst1 < 0 ∨ src < 0 then none
        else
          let objs2 : Nat → utByteArray :=
            Function.update objs1 dstByteArray
              { objs1 dstByteArray with
                _data := memcpy (objs1 dstByteArray)._data dst1.toNat
                  (fun i => byteAt fill srcData (src.toNat + i)) (intToSizeT w length2) }
          let objs3 : Nat → utByteArray :=
            if dstOffset then
              Function.update objs2 srcByteArray
                { objs2 srcByteArray with
                  _position :=
                    ((objs2 srcByteArray)._position + intToUInt length2) % UINT_RANGE }
            else
              Function.update objs2 dstByteArray
                { objs2 dstByteArray with
                  _position :=
                    ((objs2 dstByteArray)._position + intToUInt length2) % UINT_RANGE }
          some (length2, objs3)

/-- `utByteArray::writeBytes(byteArray, offset, length)` on the array at
`this`: the objects after the call. -/
def utByteArray.writeBytes (w : Nat) (fill : Nat → Nat) (objs : Nat → utByteArray)
    (this byteArray : Nat) (offset length : Int) : Option (Nat → utByteArray) :=
  (utByteArray.copyBytesInternal w fill objs this byteArray offset length false).map Prod.snd

/-- `utByteArray::readBytes(byteArray, offset, length)` on the array at
`this`: the value returned and the objects after the call. -/
def utByteArray.readBytes (w : Nat) (fill : Nat → Nat) (objs : Nat → utByteArray)
    (this byteArray : Nat) (offset length : Int) : Option (Int × (Nat → utByteArray)) :=
  utByteArray.copyBytesInternal w fill objs byteArray this offset length true

/-- Two byte arrays: eight bytes at address 1 with the position at 2, three
bytes at address 2; every other address holds an empty array. -/
def sampleObjects : Nat → utByteArray := fun p =>
  if p = 1 then { _data := [10, 11, 12, 13, 14, 15, 16, 17], _position := 2 }
  else if p = 2 then { _data := [20, 21, 22], _position := 1 }
  else { _data := [], _position := 0 }

/-- An array of `2 ^ 31` zero bytes at address 1 with the position at 0; every
other address holds an empty array. -/
def bigObjects : Nat → utByteArray := fun p =>
  if p = 1 then { _data := List.replicate 2147483648 0, _position := 0 }
  else { _data := [], _position := 0 }

/-! ## Arithmetic and memory lemmas -/

theorem sizeAdd_of_lt {w a b : Nat} (h : a + b < 2 ^ w) : sizeAdd w a b = a + b := by
  unfold sizeAdd
  exact Nat.mod_eq_of_lt h

theorem sizeMul_of_lt {w a b : Nat} (h : a * b < 2 ^ w) : sizeMul w a b = a * b := by
  unfold sizeMul
  exact Nat.mod_eq_of_lt h

theorem sizeSub_add_cancel {w b c : Nat} (h : b + c < 2 ^ w) : sizeSub w (b + c) c = b := by
  unfold sizeSub
  have hc : c % 2 ^ w = c := Nat.mod_eq_of_lt (by omega)
  rw [hc]
  have e : b + c + (2 ^ w - c) = b + 2 ^ w := by omega
  rw [e, Nat.add_mod_right]
  exact Nat.mod_eq_of_lt (by omega)

theorem loadUInt_storeUInt (m : Mem) (addr v : Nat) (hv : v < UINT_RANGE) :
    loadUInt (storeUInt m addr v) addr = v := by
  unfold UINT_RANGE at hv
  simp only [loadUInt, storeUInt]
  simp only [if_true, Nat.add_right_eq_self, Nat.succ_ne_zero, if_false, OfNat.ofNat_ne_zero,
    Nat.add_right_cancel_iff, Nat.reduceEqDiff, Nat.mod_mod]
  omega

theorem storeUInt_of_lt (m : Mem) (addr v x : Nat) (h : x < addr) :
    storeUInt m addr v x = m x := by
  unfold storeUInt
  simp only [show x ≠ addr by omega, show x ≠ addr + 1 by omega, show x ≠ addr + 2 by omega,
    show x ≠ addr + 3 by omega, if_false]

theorem storeUInt_of_ge (m : Mem) (addr v x : Nat) (h : addr + 4 ≤ x) :
    storeUInt m addr v x = m x := by
  unfold storeUInt
  simp only [show x ≠ addr by omega, show x ≠ addr + 1 by omega, show x ≠ addr + 2 by omega,
    show x ≠ addr + 3 by omega, if_false]

theorem loadUInt_congr (m m1 : Mem) (addr : Nat)
    (h : ∀ k, k < 4 → m1 (addr + k) = m (addr + k)) : loadUInt m1 addr = loadUInt m addr := by
  unfold loadUInt
  have h0 := h 0 (by omega)
  rw [Nat.add_zero] at h0
  rw [h0, h 1 (by omega), h 2 (by omega), h 3 (by omega)]

theorem elemAddr_of_lt {w : Nat} {T : ElemType} {arr i : Nat}
    (h : arr + i * T.sizeOf < 2 ^ w) : elemAddr w T arr i = arr + i * T.sizeOf := by
  unfold elemAddr
  rw [sizeMul_of_lt (by omega), sizeAdd_of_lt h]

/-- Under the layout bound, element `i` of an `n`-element array starts at
`arr + i * sizeof(T)` and ends inside the array. -/
theorem elemAddr_in_array {w : Nat} {T : ElemType} {arr n i : Nat}
    (h : arr + n * T.sizeOf < 2 ^ w) (hi : i < n) :
    elemAddr w T arr i = arr + i * T.sizeOf ∧ arr + i * T.sizeOf + T.sizeOf ≤ arr + n * T.sizeOf := by
  have h1 : (i + 1) * T.sizeOf ≤ n * T.sizeOf := Nat.mul_le_mul_right _ hi
  have h2 : (i + 1) * T.sizeOf = i * T.sizeOf + T.sizeOf := by ring
  exact ⟨elemAddr_of_lt (by omega), by omega⟩

/-! ## The construction loop -/

theorem newArray_loop_succ (w : Nat) (T : ElemType) (arr n : Nat) (σ : World) :
    loom_newArray.loop w T arr (n + 1) σ
      = (loom_constructInPlace T (elemAddr w T arr n) (loom_newArray.loop w T arr n σ)).2 := by
  simp only [loom_newArray.loop, List.range_succ, List.foldl_append, List.foldl_cons,
    List.foldl_nil]

theorem newArray_loop_trace (w : Nat) (T : ElemType) (arr n : Nat) (σ : World) :
    (loom_newArray.loop w T arr n σ).trace
      = σ.trace ++ (List.range n).map (fun i => Event.construct (elemAddr w T arr i)) := by
  induction n with
  | zero => simp [loom_newArray.loop]
  | succ n ih =>
    rw [newArray_loop_succ]
    simp only [loom_constructInPlace, ih, List.range_succ, List.map_append, List.map_cons,
      List.map_nil, List.append_assoc]

/-- The construction loop leaves every byte below the first element as it was,
when the elements lie in the address space. -/
theorem newArray_loop_mem_below (w : Nat) (T : ElemType) (arr n : Nat) (σ : World) (x : Nat)
    (hfit : arr + n * T.sizeOf < 2 ^ w) (hx : x < arr) :
    (loom_newArray.loop w T arr n σ).mem x = σ.mem x := by
  induction n with
  | zero => simp [loom_newArray.loop]
  | succ n ih =>
    have hle : n * T.sizeOf ≤ (n + 1) * T.sizeOf := Nat.mul_le_mul_right _ (Nat.le_succ n)
    rw [newArray_loop_succ]
    have ha := (elemAddr_in_array hfit (Nat.lt_succ_self n)).1
    simp only [loom_constructInPlace, writeObject, ha]
    rw [if_neg (by omega)]
    exact ih (by omega)

/-! ## The destruction loop -/

theorem deleteArray_loop_trace (w : Nat) (T : ElemType) (arr n : Nat) (σ : World)
    (hnz : ∀ i, i < n → elemAddr w T arr i ≠ 0) :
    (loom_deleteArray.loop w T arr n σ).trace
      = σ.trace ++ (List.range n).reverse.map (fun i => Event.destruct (elemAddr w T arr i)) := by
  induction n generalizing σ with
  | zero => simp [loom_deleteArray.loop]
  | succ n ih =>
    have h0 := hnz n (Nat.lt_succ_self n)
    rw [loom_deleteArray.loop, ih _ (fun i hi => hnz i (Nat.lt_succ_of_lt hi))]
    simp only [loom_destructInPlace, if_neg h0, List.range_succ, List.reverse_append,
      List.reverse_cons, List.reverse_nil, List.nil_append, List.singleton_append, List.map_cons,
      List.append_assoc]

/-- Whatever the addresses, the destruction loop only adds destructor calls
to the trace, at most one per element. -/
theorem deleteArray_loop_only_destructs (w : Nat) (T : ElemType) (arr n : Nat) (σ : World) :
    ∃ ds : List Event, (∀ e, e ∈ ds → ∃ addr, e = Event.destruct addr) ∧ ds.length ≤ n ∧
      (loom_deleteArray.loop w T arr n σ).trace = σ.trace ++ ds := by
  induction n generalizing σ with
  | zero => exact ⟨[], by simp, by simp, by simp [loom_deleteArray.loop]⟩
  | succ n ih =>
    obtain ⟨ds, hds, hlen, htr⟩ := ih (loom_destructInPlace T (elemAddr w T arr n) σ).2
    rw [loom_deleteArray.loop, htr]
    by_cases h0 : elemAddr w T arr n = 0
    · refine ⟨ds, hds, by omega, ?_⟩
      simp only [loom_destructInPlace, if_pos h0]
    · refine ⟨Event.destruct (elemAddr w T arr n) :: ds, ?_, by simp; omega, ?_⟩
      · intro e he
        rcases List.mem_cons.mp he with rfl | he
        · exact ⟨_, rfl⟩
        · exact hds e he
      · simp only [loom_destructInPlace, if_neg h0, List.append_assoc, List.singleton_append]

/-! ## The allocation functions on a given block -/

theorem newArray_inject_null (w : Nat) (T : ElemType) (nr : Nat) (σ : World) :
    loom_newArray_inject w T 0 nr σ = Outcome.assertFailed σ := by
  simp [loom_newArray_inject, lmSafeAssert]

theorem newArray_inject_ok (w : Nat) (T : ElemType) (arr nr : Nat) (σ : World) (h : arr ≠ 0) :
    loom_newArray_inject w T arr nr σ
      = Outcome.ok (sizeAdd w arr LOOM_ALLOCATOR_METADATA_SIZE)
          { mem := storeUInt σ.mem arr nr, trace := σ.trace } := by
  simp [loom_newArray_inject, lmSafeAssert, h]

theorem newArray_fundamental (w : Nat) (T : ElemType) (a n b : Nat) (σ : World)
    (hT : ArrayAlloc.fundamental T.ty = true) (hb : b ≠ 0) :
    loom_newArray w T a n b σ
      = Outcome.ok (sizeAdd w b LOOM_ALLOCATOR_METADATA_SIZE)
          { mem := storeUInt (zeroFill σ.mem b
              (1 * sizeAdd w LOOM_ALLOCATOR_METADATA_SIZE (sizeMul w n T.sizeOf))) b n,
            trace := σ.trace ++ [Event.lmCalloc a 1
              (sizeAdd w LOOM_ALLOCATOR_METADATA_SIZE (sizeMul w n T.sizeOf))] } := by
  simp [loom_newArray, hT, loom_newArray_calloc, lmCalloc, newArray_inject_ok, hb]

theorem newArray_class (w : Nat) (T : ElemType) (a n b : Nat) (σ : World)
    (hT : ArrayAlloc.fundamental T.ty = false) (hb : b ≠ 0) :
    loom_newArray w T a n b σ
      = Outcome.ok (sizeAdd w b LOOM_ALLOCATOR_METADATA_SIZE)
          (loom_newArray.loop w T (sizeAdd w b LOOM_ALLOCATOR_METADATA_SIZE) n
            { mem := storeUInt σ.mem b n,
              trace := σ.trace ++ [Event.lmAlloc a
                (sizeAdd w LOOM_ALLOCATOR_METADATA_SIZE (sizeMul w n T.sizeOf))] }) := by
  simp [loom_newArray, hT, loom_newArray_alloc, lmAlloc, newArray_inject_ok, hb]

/-- The header written by `loom_newArray` holds the count when the call returns,
for an array that lies in the address space. -/
theorem newArray_header (w : Nat) (T : ElemType) (a n b : Nat) (σ : World)
    (hn : n < UINT_RANGE) (hb : 0 < b)
    (hfit : b + LOOM_ALLOCATOR_METADATA_SIZE + n * T.sizeOf < 2 ^ w) :
    loadUInt (loom_newArray w T a n b σ).world.mem b = n := by
  have hb0 : b ≠ 0 := by omega
  have hp : sizeAdd w b LOOM_ALLOCATOR_METADATA_SIZE = b + LOOM_ALLOCATOR_METADATA_SIZE :=
    sizeAdd_of_lt (by omega)
  cases hT : ArrayAlloc.fundamental T.ty with
  | true =>
    rw [newArray_fundamental w T a n b σ hT hb0]
    exact loadUInt_storeUInt _ _ _ hn
  | false =>
    rw [newArray_class w T a n b σ hT hb0, hp]
    simp only [Outcome.world]
    rw [loadUInt_congr (storeUInt σ.mem b n) _ b, loadUInt_storeUInt _ _ _ hn]
    intro k hk
    rw [newArray_loop_mem_below w T _ n _ _ hfit (by unfold LOOM_ALLOCATOR_METADATA_SIZE; omega)]

theorem newArray_value (w : Nat) (T : ElemType) (a n b : Nat) (σ : World)
    (hb : 0 < b) (hfit : b + LOOM_ALLOCATOR_METADATA_SIZE < 2 ^ w) :
    (loom_newArray w T a n b σ).value = some (b + LOOM_ALLOCATOR_METADATA_SIZE) := by
  have hb0 : b ≠ 0 := by omega
  cases hT : ArrayAlloc.fundamental T.ty with
  | true => rw [newArray_fundamental w T a n b σ hT hb0, sizeAdd_of_lt hfit]; rfl
  | false => rw [newArray_class w T a n b σ hT hb0, sizeAdd_of_lt hfit]; rfl

/-- The calls `loom_deleteArray` makes on the first element of an array built
at block `b`, when the header at `b` holds `n`. -/
theorem deleteArray_trace (w : Nat) (T : ElemType) (a n b : Nat) (σ : World)
    (hb : 0 < b) (hfit : b + LOOM_ALLOCATOR_METADATA_SIZE + n * T.sizeOf < 2 ^ w)
    (hhdr : loadUInt σ.mem b = n) :
    (loom_deleteArray w T a (b + LOOM_ALLOCATOR_METADATA_SIZE) σ).trace
      = σ.trace
        ++ (if ArrayAlloc.fundamental T.ty then []
            else (List.range n).reverse.map
              (fun i => Event.destruct (b + LOOM_ALLOCATOR_METADATA_SIZE + i * T.sizeOf)))
        ++ [Event.lmFree a b] := by
  have hp : b + LOOM_ALLOCATOR_METADATA_SIZE ≠ 0 := by omega
  have hsub : sizeSub w (b + LOOM_ALLOCATOR_METADATA_SIZE) LOOM_ALLOCATOR_METADATA_SIZE = b :=
    sizeSub_add_cancel (by omega)
  simp only [loom_deleteArray, if_neg hp, hsub, hhdr, lmFree]
  cases hT : ArrayAlloc.fundamental T.ty with
  | true => simp
  | false =>
    have haddr : ∀ i, i < n → elemAddr w T (b + LOOM_ALLOCATOR_METADATA_SIZE) i
        = b + LOOM_ALLOCATOR_METADATA_SIZE + i * T.sizeOf :=
      fun i hi => (elemAddr_in_array hfit hi).1
    have hnz : ∀ i, i < n → elemAddr w T (b + LOOM_ALLOCATOR_METADATA_SIZE) i ≠ 0 := by
      intro i hi
      rw [haddr i hi]
      omega
    simp only [Bool.not_false, if_true, Bool.false_eq_true, if_false]
    rw [deleteArray_loop_trace w T _ n σ hnz]
    congr 2
    apply List.map_congr_left
    intro i hi
    rw [haddr i (by simpa using hi)]

/-! ## Claims about the typed array layer -/

/-- C3: for every non-fundamental element type `T` and every count `n`,
`loom_newArray<T>(a, n)` asks for its block with `lmAlloc` (not `lmCalloc`)
and, the block being non-null, runs the default constructor once on each of
the elements `0, 1, ..., n-1` in ascending order and on nothing else. -/
theorem C3_newArray_constructs_ascending (w : Nat) (T : ElemType) (a n b : Nat) (σ : World)
    (hT : ArrayAlloc.fundamental T.ty = false) (hb : b ≠ 0) :
    (loom_newArray w T a n b σ).world.trace
      = σ.trace
        ++ [Event.lmAlloc a (sizeAdd w LOOM_ALLOCATOR_METADATA_SIZE (sizeMul w n T.sizeOf))]
        ++ (List.range n).map
            (fun i => Event.construct (elemAddr w T (sizeAdd w b LOOM_ALLOCATOR_METADATA_SIZE) i)) ∧
    ((List.range n).map
        (fun i => Event.construct
          (elemAddr w T (sizeAdd w b LOOM_ALLOCATOR_METADATA_SIZE) i))).length = n := by
  rw [newArray_class w T a n b σ hT hb]
  exact ⟨by simp [Outcome.world, newArray_loop_trace], by simp⟩

/-- C3 at a concrete input: three `sampleClass` objects. -/
theorem C3_newArray_constructs_ascending_witness :
    (ArrayAlloc.fundamental sampleClass.ty = false ∧ 4096 ≠ 0) ∧
    ((loom_newArray 64 sampleClass 7 3 4096 dirtyWorld).world.trace
      = dirtyWorld.trace
        ++ [Event.lmAlloc 7
            (sizeAdd 64 LOOM_ALLOCATOR_METADATA_SIZE (sizeMul 64 3 sampleClass.sizeOf))]
        ++ (List.range 3).map
            (fun i => Event.construct
              (elemAddr 64 sampleClass (sizeAdd 64 4096 LOOM_ALLOCATOR_METADATA_SIZE) i)) ∧
    ((List.range 3).map
        (fun i => Event.construct
          (elemAddr 64 sampleClass (sizeAdd 64 4096 LOOM_ALLOCATOR_METADATA_SIZE) i))).length = 3) :=
  ⟨⟨by decide, by decide⟩,
   C3_newArray_constructs_ascending 64 sampleClass 7 3 4096 dirtyWorld (by decide) (by decide)⟩

/-- C4, as stated, fails: on a target with a 32-bit `size_t`,
`loom_newArray<int>(a, 0x40000000)` computes the size `16 + 0x40000000 * 4
= 16` modulo `2 ^ 32`, so `lmCalloc(a, 1, 16)` zeroes the header only and the
first element byte still holds what the memory held (`0xFF`): not every one of
the `n * sizeof(T)` element bytes is zero. -/
theorem C4_zero_fill_counterexample :
    ArrayAlloc.fundamental sampleInt.ty = true ∧ 2 ^ 30 < UINT_RANGE ∧
    (loom_newArray 32 sampleInt 7 (2 ^ 30) 4096 dirtyWorld).value = some 4112 ∧
    (loom_newArray 32 sampleInt 7 (2 ^ 30) 4096 dirtyWorld).world.trace
      = [Event.lmCalloc 7 1 16] ∧
    (loom_newArray 32 sampleInt 7 (2 ^ 30) 4096 dirtyWorld).world.mem 4112 = 0xFF ∧
    ¬ (∀ k, k < 2 ^ 30 * sampleInt.sizeOf →
        (loom_newArray 32 sampleInt 7 (2 ^ 30) 4096 dirtyWorld).world.mem (4112 + k) = 0) := by
  have hmem : (loom_newArray 32 sampleInt 7 (2 ^ 30) 4096 dirtyWorld).world.mem 4112 = 0xFF := by
    decide
  refine ⟨by decide, by decide, by decide, by decide, hmem, ?_⟩
  intro h
  have h0 := h 0 (by decide)
  rw [Nat.add_zero, hmem] at h0
  exact absurd h0 (by decide)

/-- C4, amended: for every fundamental element type `T` and every count `n`
for which the block of `16 + n * sizeof(T)` bytes at the non-null address `b`
lies in the address space (so the `size_t` computation of the size does not
wrap), `loom_newArray<T>(a, n)` makes the one call `lmCalloc(a, 1, 16 + n *
sizeof(T))` and no constructor call, returns `b + 16`, and when it returns
every one of the `n * sizeof(T)` element bytes is zero and the header holds
`n`. -/
theorem C4_newArray_fundamental_zeroed (w : Nat) (T : ElemType) (a n b : Nat) (σ : World)
    (hT : ArrayAlloc.fundamental T.ty = true) (hn : n < UINT_RANGE) (hb : 0 < b)
    (hfit : b + (LOOM_ALLOCATOR_METADATA_SIZE + n * T.sizeOf) < 2 ^ w) :
    (loom_newArray w T a n b σ).world.trace
      = σ.trace ++ [Event.lmCalloc a 1 (LOOM_ALLOCATOR_METADATA_SIZE + n * T.sizeOf)] ∧
    (loom_newArray w T a n b σ).value = some (b + LOOM_ALLOCATOR_METADATA_SIZE) ∧
    (∀ k, k < n * T.sizeOf →
      (loom_newArray w T a n b σ).world.mem (b + LOOM_ALLOCATOR_METADATA_SIZE + k) = 0) ∧
    loadUInt (loom_newArray w T a n b σ).world.mem b = n := by
  have hb0 : b ≠ 0 := by omega
  have hsz : sizeAdd w LOOM_ALLOCATOR_METADATA_SIZE (sizeMul w n T.sizeOf)
      = LOOM_ALLOCATOR_METADATA_SIZE + n * T.sizeOf := by
    rw [sizeMul_of_lt (by omega), sizeAdd_of_lt (by omega)]
  refine ⟨?_, newArray_value w T a n b σ hb (by omega), ?_,
    newArray_header w T a n b σ hn hb (by omega)⟩
  · rw [newArray_fundamental w T a n b σ hT hb0, hsz]
    rfl
  · intro k hk
    rw [newArray_fundamental w T a n b σ hT hb0, hsz]
    simp only [Outcome.world]
    rw [storeUInt_of_ge _ _ _ _ (by unfold LOOM_ALLOCATOR_METADATA_SIZE; omega)]
    unfold zeroFill
    rw [if_pos (by omega)]

/-- C4, amended, at a concrete input: three `int` on a 32-bit target. -/
theorem C4_newArray_fundamental_zeroed_witness :
    (ArrayAlloc.fundamental sampleInt.ty = true ∧ 3 < UINT_RANGE ∧ 0 < 4096 ∧
      4096 + (LOOM_ALLOCATOR_METADATA_SIZE + 3 * sampleInt.sizeOf) < 2 ^ 32) ∧
    ((loom_newArray 32 sampleInt 7 3 4096 dirtyWorld).world.trace
      = dirtyWorld.trace
        ++ [Event.lmCalloc 7 1 (LOOM_ALLOCATOR_METADATA_SIZE + 3 * sampleInt.sizeOf)] ∧
    (loom_newArray 32 sampleInt 7 3 4096 dirtyWorld).value
      = some (4096 + LOOM_ALLOCATOR_METADATA_SIZE) ∧
    (∀ k, k < 3 * sampleInt.sizeOf →
      (loom_newArray 32 sampleInt 7 3 4096 dirtyWorld).world.mem
        (4096 + LOOM_ALLOCATOR_METADATA_SIZE + k) = 0) ∧
    loadUInt (loom_newArray 32 sampleInt 7 3 4096 dirtyWorld).world.mem 4096 = 3) :=
  ⟨⟨by decide, by decide, by decide, by decide⟩,
   C4_newArray_fundamental_zeroed 32 sampleInt 7 3 4096 dirtyWorld
     (by decide) (by decide) (by decide) (by decide)⟩

/-- C5: for every non-null block address `b` (with the 16-byte header inside
the address space) and every count `n`, `loom_newArray_inject<T>(b, n)` stores
`n` as an `unsigned int` at offset 0 of the block, leaves every byte at offset
16 or more unchanged, makes no outside call and returns `b + 16`; on a null
block the assertion fails and the state is the one before the call, nothing
having been written. -/
theorem C5_newArray_inject (w : Nat) (T : ElemType) (n b : Nat) (σ : World)
    (hn : n < UINT_RANGE) (hb : b ≠ 0) (hfit : b + LOOM_ALLOCATOR_METADATA_SIZE < 2 ^ w) :
    (loom_newArray_inject w T b n σ).value = some (b + LOOM_ALLOCATOR_METADATA_SIZE) ∧
    loadUInt (loom_newArray_inject w T b n σ).world.mem b = n ∧
    (∀ k, LOOM_ALLOCATOR_METADATA_SIZE ≤ k →
      (loom_newArray_inject w T b n σ).world.mem (b + k) = σ.mem (b + k)) ∧
    (loom_newArray_inject w T b n σ).world.trace = σ.trace ∧
    loom_newArray_inject w T 0 n σ = Outcome.assertFailed σ := by
  rw [newArray_inject_ok w T b n σ hb, sizeAdd_of_lt hfit]
  refine ⟨rfl, loadUInt_storeUInt _ _ _ hn, ?_, rfl, newArray_inject_null w T n σ⟩
  intro k hk
  exact storeUInt_of_ge _ _ _ _ (by unfold LOOM_ALLOCATOR_METADATA_SIZE at hk; omega)

/-- C5 at a concrete input: the count 3 injected into the block at 4096. -/
theorem C5_newArray_inject_witness :
    (3 < UINT_RANGE ∧ 4096 ≠ 0 ∧ 4096 + LOOM_ALLOCATOR_METADATA_SIZE < 2 ^ 64) ∧
    ((loom_newArray_inject 64 sampleClass 4096 3 dirtyWorld).value
      = some (4096 + LOOM_ALLOCATOR_METADATA_SIZE) ∧
    loadUInt (loom_newArray_inject 64 sampleClass 4096 3 dirtyWorld).world.mem 4096 = 3 ∧
    (∀ k, LOOM_ALLOCATOR_METADATA_SIZE ≤ k →
      (loom_newArray_inject 64 sampleClass 4096 3 dirtyWorld).world.mem (4096 + k)
        = dirtyWorld.mem (4096 + k)) ∧
    (loom_newArray_inject 64 sampleClass 4096 3 dirtyWorld).world.trace = dirtyWorld.trace ∧
    loom_newArray_inject 64 sampleClass 0 3 dirtyWorld = Outcome.assertFailed dirtyWorld) :=
  ⟨⟨by decide, by decide, by decide⟩,
   C5_newArray_inject 64 sampleClass 3 4096 dirtyWorld (by decide) (by decide) (by decide)⟩

theorem newArray_inject_trace (w : Nat) (T : ElemType) (arr nr : Nat) (σ : World) :
    (loom_newArray_inject w T arr nr σ).world.trace = σ.trace := by
  by_cases h : arr = 0
  · subst h
    rw [newArray_inject_null]
    rfl
  · rw [newArray_inject_ok w T arr nr σ h]
    rfl

/-- C6: zero-length arrays. For every element type `T`, `loom_newArray<T>(a, 0)`
requests a block of exactly 16 bytes (with `lmCalloc(a, 1, 16)` for a
fundamental `T`, with `lmAlloc(a, 16)` otherwise) and makes no constructor
call; on the non-null block `b` it returns the non-null pointer `b + 16` and
the header holds 0; `loom_deleteArray` on that pointer makes no destructor call
and the single call `lmFree(a, b)`. -/
theorem C6_zero_length_array (w : Nat) (T : ElemType) (a b : Nat) (σ : World)
    (hb : 0 < b) (hfit : b + LOOM_ALLOCATOR_METADATA_SIZE < 2 ^ w) :
    (loom_newArray w T a 0 b σ).world.trace
      = σ.trace ++ [if ArrayAlloc.fundamental T.ty then Event.lmCalloc a 1 16
                    else Event.lmAlloc a 16] ∧
    (loom_newArray w T a 0 b σ).value = some (b + LOOM_ALLOCATOR_METADATA_SIZE) ∧
    b + LOOM_ALLOCATOR_METADATA_SIZE ≠ 0 ∧
    loadUInt (loom_newArray w T a 0 b σ).world.mem b = 0 ∧
    (loom_deleteArray w T a (b + LOOM_ALLOCATOR_METADATA_SIZE)
        (loom_newArray w T a 0 b σ).world).trace
      = (loom_newArray w T a 0 b σ).world.trace ++ [Event.lmFree a b] := by
  have hb0 : b ≠ 0 := by omega
  have hfit0 : b + LOOM_ALLOCATOR_METADATA_SIZE + 0 * T.sizeOf < 2 ^ w := by omega
  have hsz : sizeAdd w LOOM_ALLOCATOR_METADATA_SIZE (sizeMul w 0 T.sizeOf) = 16 := by
    rw [sizeMul_of_lt (by omega), sizeAdd_of_lt (by omega), Nat.zero_mul]
    rfl
  have hhdr := newArray_header w T a 0 b σ (by decide) hb hfit0
  have hdel := deleteArray_trace w T a 0 b _ hb hfit0 hhdr
  refine ⟨?_, newArray_value w T a 0 b σ hb hfit, by omega, hhdr, ?_⟩
  · cases hT : ArrayAlloc.fundamental T.ty with
    | true => rw [newArray_fundamental w T a 0 b σ hT hb0, hsz]; rfl
    | false =>
      rw [newArray_class w T a 0 b σ hT hb0, hsz]
      simp [Outcome.world, newArray_loop_trace]
  · rw [hdel]
    cases ArrayAlloc.fundamental T.ty <;> simp

/-- C6 at a concrete input: an empty array of `sampleClass`. -/
theorem C6_zero_length_array_witness :
    (0 < 4096 ∧ 4096 + LOOM_ALLOCATOR_METADATA_SIZE < 2 ^ 64) ∧
    ((loom_newArray 64 sampleClass 7 0 4096 dirtyWorld).world.trace
      = dirtyWorld.trace ++ [if ArrayAlloc.fundamental sampleClass.ty then Event.lmCalloc 7 1 16
                    else Event.lmAlloc 7 16] ∧
    (loom_newArray 64 sampleClass 7 0 4096 dirtyWorld).value
      = some (4096 + LOOM_ALLOCATOR_METADATA_SIZE) ∧
    4096 + LOOM_ALLOCATOR_METADATA_SIZE ≠ 0 ∧
    loadUInt (loom_newArray 64 sampleClass 7 0 4096 dirtyWorld).world.mem 4096 = 0 ∧
    (loom_deleteArray 64 sampleClass 7 (4096 + LOOM_ALLOCATOR_METADATA_SIZE)
        (loom_newArray 64 sampleClass 7 0 4096 dirtyWorld).world).trace
      = (loom_newArray 64 sampleClass 7 0 4096 dirtyWorld).world.trace
          ++ [Event.lmFree 7 4096]) :=
  ⟨⟨by decide, by decide⟩,
   C6_zero_length_array 64 sampleClass 7 4096 dirtyWorld (by decide) (by decide)⟩

/-- C7: `loom_deleteArray<T>(a, NULL)` does nothing, for every element type `T`
and allocator `a`: the state after the call is the state before it, memory
and calls alike, so no destructor and no free call was made. -/
theorem C7_deleteArray_null (w : Nat) (T : ElemType) (a : Nat) (σ : World) :
    loom_deleteArray w T a 0 σ = σ := by
  simp [loom_deleteArray]

/-- C8: on a non-null array `b + 16` (header at `b`, inside the address
space), whatever the header holds, `loom_deleteArray` adds to the trace a run
of destructor calls followed by exactly one `lmFree`, made last and on the full
block address `b`; for a fundamental `T` the run of destructor calls is
empty. -/
theorem C8_deleteArray_frees_once_last (w : Nat) (T : ElemType) (a b : Nat) (σ : World)
    (hfit : b + LOOM_ALLOCATOR_METADATA_SIZE < 2 ^ w) :
    ∃ ds : List Event, (∀ e, e ∈ ds → ∃ addr, e = Event.destruct addr) ∧
      (ArrayAlloc.fundamental T.ty = true → ds = []) ∧
      (loom_deleteArray w T a (b + LOOM_ALLOCATOR_METADATA_SIZE) σ).trace
        = σ.trace ++ ds ++ [Event.lmFree a b] := by
  have hp : b + LOOM_ALLOCATOR_METADATA_SIZE ≠ 0 := by
    unfold LOOM_ALLOCATOR_METADATA_SIZE
    omega
  have hsub : sizeSub w (b + LOOM_ALLOCATOR_METADATA_SIZE) LOOM_ALLOCATOR_METADATA_SIZE = b :=
    sizeSub_add_cancel hfit
  simp only [loom_deleteArray, if_neg hp, hsub, lmFree]
  cases hT : ArrayAlloc.fundamental T.ty with
  | true => exact ⟨[], by simp, fun _ => rfl, by simp⟩
  | false =>
    obtain ⟨ds, hds, _, htr⟩ :=
      deleteArray_loop_only_destructs w T (b + LOOM_ALLOCATOR_METADATA_SIZE) (loadUInt σ.mem b) σ
    exact ⟨ds, hds, by simp, by simp [htr]⟩

/-- C8 at a concrete input: an array of three `sampleClass` objects. -/
theorem C8_deleteArray_frees_once_last_witness :
    4096 + LOOM_ALLOCATOR_METADATA_SIZE < 2 ^ 64 ∧
    ∃ ds : List Event, (∀ e, e ∈ ds → ∃ addr, e = Event.destruct addr) ∧
      (ArrayAlloc.fundamental sampleClass.ty = true → ds = []) ∧
      (loom_deleteArray 64 sampleClass 7 (4096 + LOOM_ALLOCATOR_METADATA_SIZE)
          (loom_newArray 64 sampleClass 7 3 4096 dirtyWorld).world).trace
        = (loom_newArray 64 sampleClass 7 3 4096 dirtyWorld).world.trace ++ ds
            ++ [Event.lmFree 7 4096] :=
  ⟨by decide,
   C8_deleteArray_frees_once_last 64 sampleClass 7 4096
     (loom_newArray 64 sampleClass 7 3 4096 dirtyWorld).world (by decide)⟩

/-- C9, as stated, fails: on a target with a 32-bit `size_t` and a four-byte
element type, the count `0x40000000` is an `unsigned int`, and the size
`16 + 0x40000000 * 4` wraps to 16 on both paths: `lmCalloc(a, 1, 16)` for
`int`, `lmAlloc(a, 16)` for a type taking the constructing path. With a 64-bit
`size_t` the same happens for an element type of `2 ^ 33` bytes and the count
`0x80000000`. -/
theorem C9_request_size_counterexample :
    2 ^ 30 < UINT_RANGE ∧
    (loom_newArray_calloc 32 sampleInt 7 (2 ^ 30) 4096 dirtyWorld).world.trace
      = [Event.lmCalloc 7 1 16] ∧
    (loom_newArray_alloc 32 sampleFloat 7 (2 ^ 30) 4096 dirtyWorld).world.trace
      = [Event.lmAlloc 7 16] ∧
    (loom_newArray 32 sampleInt 7 (2 ^ 30) 4096 dirtyWorld).world.trace.head?
      = some (Event.lmCalloc 7 1 16) ∧
    LOOM_ALLOCATOR_METADATA_SIZE + 2 ^ 30 * sampleInt.sizeOf ≠ 16 ∧
    LOOM_ALLOCATOR_METADATA_SIZE + 2 ^ 30 * sampleFloat.sizeOf ≠ 16 ∧
    2 ^ 31 < UINT_RANGE ∧
    (loom_newArray_alloc 64 sampleHuge 7 (2 ^ 31) 4096 dirtyWorld).world.trace
      = [Event.lmAlloc 7 16] ∧
    LOOM_ALLOCATOR_METADATA_SIZE + 2 ^ 31 * sampleHuge.sizeOf ≠ 16 := by
  refine ⟨by decide, by decide, by decide, by decide, by decide, by decide, by decide,
    by decide, by decide⟩

/-- C9, amended: for every count `n` and element type `T` for which
`16 + n * sizeof(T)` is representable as a `size_t` (is below `2 ^ w`), the
number of bytes requested from the allocator is exactly `16 + n * sizeof(T)`,
by `loom_newArray_alloc` and by `loom_newArray_calloc`, and so by
`loom_newArray` on either path, whatever block the allocator hands back. -/
theorem C9_request_size (w : Nat) (T : ElemType) (a n b : Nat) (σ : World)
    (h : LOOM_ALLOCATOR_METADATA_SIZE + n * T.sizeOf < 2 ^ w) :
    (loom_newArray_alloc w T a n b σ).world.trace
      = σ.trace ++ [Event.lmAlloc a (LOOM_ALLOCATOR_METADATA_SIZE + n * T.sizeOf)] ∧
    (loom_newArray_calloc w T a n b σ).world.trace
      = σ.trace ++ [Event.lmCalloc a 1 (LOOM_ALLOCATOR_METADATA_SIZE + n * T.sizeOf)] ∧
    (loom_newArray w T a n b σ).world.trace.take (σ.trace.length + 1)
      = σ.trace ++ [if ArrayAlloc.fundamental T.ty
                    then Event.lmCalloc a 1 (LOOM_ALLOCATOR_METADATA_SIZE + n * T.sizeOf)
                    else Event.lmAlloc a (LOOM_ALLOCATOR_METADATA_SIZE + n * T.sizeOf)] := by
  have hsz : sizeAdd w LOOM_ALLOCATOR_METADATA_SIZE (sizeMul w n T.sizeOf)
      = LOOM_ALLOCATOR_METADATA_SIZE + n * T.sizeOf := by
    rw [sizeMul_of_lt (by omega), sizeAdd_of_lt (by omega)]
  have halloc : (loom_newArray_alloc w T a n b σ).world.trace
      = σ.trace ++ [Event.lmAlloc a (LOOM_ALLOCATOR_METADATA_SIZE + n * T.sizeOf)] := by
    simp only [loom_newArray_alloc, newArray_inject_trace, lmAlloc, hsz]
  have hcalloc : (loom_newArray_calloc w T a n b σ).world.trace
      = σ.trace ++ [Event.lmCalloc a 1 (LOOM_ALLOCATOR_METADATA_SIZE + n * T.sizeOf)] := by
    simp only [loom_newArray_calloc, newArray_inject_trace, lmCalloc, hsz]
  refine ⟨halloc, hcalloc, ?_⟩
  cases hT : ArrayAlloc.fundamental T.ty with
  | true =>
    simp only [loom_newArray, hT, if_true, hcalloc]
    simp
  | false =>
    by_cases hb : b = 0
    · have hfail : loom_newArray w T a n b σ = Outcome.assertFailed
          { mem := σ.mem, trace := σ.trace ++ [Event.lmAlloc a
              (sizeAdd w LOOM_ALLOCATOR_METADATA_SIZE (sizeMul w n T.sizeOf))] } := by
        subst hb
        simp [loom_newArray, hT, loom_newArray_alloc, lmAlloc, newArray_inject_null]
      rw [hfail, hsz]
      simp [Outcome.world]
    · rw [newArray_class w T a n b σ hT hb, hsz]
      simp only [Outcome.world, newArray_loop_trace]
      rw [List.append_assoc, List.take_append_eq_append_take]
      simp

/-- C9, amended, at a concrete input: ten `int` on a 32-bit target request
56 bytes. -/
theorem C9_request_size_witness :
    LOOM_ALLOCATOR_METADATA_SIZE + 10 * sampleInt.sizeOf < 2 ^ 32 ∧
    ((loom_newArray_alloc 32 sampleInt 7 10 4096 dirtyWorld).world.trace
      = dirtyWorld.trace
          ++ [Event.lmAlloc 7 (LOOM_ALLOCATOR_METADATA_SIZE + 10 * sampleInt.sizeOf)] ∧
    (loom_newArray_calloc 32 sampleInt 7 10 4096 dirtyWorld).world.trace
      = dirtyWorld.trace
          ++ [Event.lmCalloc 7 1 (LOOM_ALLOCATOR_METADATA_SIZE + 10 * sampleInt.sizeOf)] ∧
    (loom_newArray 32 sampleInt 7 10 4096 dirtyWorld).world.trace.take
        (dirtyWorld.trace.length + 1)
      = dirtyWorld.trace ++ [if ArrayAlloc.fundamental sampleInt.ty
          then Event.lmCalloc 7 1 (LOOM_ALLOCATOR_METADATA_SIZE + 10 * sampleInt.sizeOf)
          else Event.lmAlloc 7 (LOOM_ALLOCATOR_METADATA_SIZE + 10 * sampleInt.sizeOf)]) :=
  ⟨by decide, C9_request_size 32 sampleInt 7 10 4096 dirtyWorld (by decide)⟩

/-- C10: `ArrayAlloc` gives `fundamental = true` for every pointer type, `bool`,
`char`, `wchar_t`, `signed char`, `unsigned char`, the signed and unsigned
`short`, `int`, `long`, `long long`, `double` and `long double`, but there is
no specialisation for `float`: `ArrayAlloc<float>::fundamental` is `false`, and
`loom_newArray<float>(a, 2)` calls `lmAlloc` and then the constructor on each
of the two elements. -/
theorem C10_ArrayAlloc_classification :
    (∀ t : CType, ArrayAlloc.fundamental (CType.pointer t) = true) ∧
    (∀ t : CType,
      t ∈ [CType.bool, CType.char, CType.wchar_t, CType.signedChar, CType.unsignedChar,
           CType.shortInt, CType.int, CType.longInt, CType.longLongInt,
           CType.unsignedShortInt, CType.unsignedInt, CType.unsignedLongInt,
           CType.unsignedLongLongInt, CType.double, CType.longDouble] →
      ArrayAlloc.fundamental t = true) ∧
    ArrayAlloc.fundamental CType.float = false ∧
    (loom_newArray 64 sampleFloat 7 2 4096 dirtyWorld).world.trace
      = [Event.lmAlloc 7 24, Event.construct 4112, Event.construct 4116] := by
  refine ⟨fun _ => rfl, ?_, rfl, by decide⟩
  intro t ht
  simp only [List.mem_cons, List.mem_singleton, List.not_mem_nil, or_false] at ht
  rcases ht with h | h | h | h | h | h | h | h | h | h | h | h | h | h | h <;> subst h <;> rfl

/-- C11: `LOOM_ALLOCATOR_METADATA_SIZE` is a multiple of 16 and at least
`sizeof(unsigned int)` (the header holds every `unsigned int` count, and the
store of the count changes no byte outside the header); so for every non-null
block address `b` that is 16-byte aligned, the first-element address returned
by `loom_newArray_inject` is 16-byte aligned as well, as is `b + 16`. -/
theorem C11_metadata_size_alignment (w : Nat) (T : ElemType) (n b : Nat) (σ : World)
    (hw : 4 ≤ w) (hb : b ≠ 0) (hal : b % 16 = 0) :
    LOOM_ALLOCATOR_METADATA_SIZE % 16 = 0 ∧
    SIZEOF_UINT ≤ LOOM_ALLOCATOR_METADATA_SIZE ∧
    UINT_RANGE = 256 ^ SIZEOF_UINT ∧
    (∀ x, (x < b ∨ b + LOOM_ALLOCATOR_METADATA_SIZE ≤ x) →
      (loom_newArray_inject w T b n σ).world.mem x = σ.mem x) ∧
    (loom_newArray_inject w T b n σ).value
      = some (sizeAdd w b LOOM_ALLOCATOR_METADATA_SIZE) ∧
    sizeAdd w b LOOM_ALLOCATOR_METADATA_SIZE % 16 = 0 ∧
    (b + LOOM_ALLOCATOR_METADATA_SIZE) % 16 = 0 := by
  have h16 : (16 : Nat) ∣ 2 ^ w := by
    have : (2 : Nat) ^ 4 ∣ 2 ^ w := Nat.pow_dvd_pow 2 hw
    simpa using this
  have hsum : (b + LOOM_ALLOCATOR_METADATA_SIZE) % 16 = 0 := by
    unfold LOOM_ALLOCATOR_METADATA_SIZE
    omega
  refine ⟨by decide, by decide, by decide, ?_, ?_, ?_, hsum⟩
  · intro x hx
    rw [newArray_inject_ok w T b n σ hb]
    simp only [Outcome.world]
    unfold LOOM_ALLOCATOR_METADATA_SIZE at hx
    rcases hx with hx | hx
    · exact storeUInt_of_lt _ _ _ _ hx
    · exact storeUInt_of_ge _ _ _ _ (by omega)
  · rw [newArray_inject_ok w T b n σ hb]
    rfl
  · unfold sizeAdd
    rw [Nat.mod_mod_of_dvd _ h16]
    exact hsum

/-- C11 at a concrete input: the block at 4096 on a 32-bit target. -/
theorem C11_metadata_size_alignment_witness :
    (4 ≤ 32 ∧ 4096 ≠ 0 ∧ 4096 % 16 = 0) ∧
    (LOOM_ALLOCATOR_METADATA_SIZE % 16 = 0 ∧
    SIZEOF_UINT ≤ LOOM_ALLOCATOR_METADATA_SIZE ∧
    UINT_RANGE = 256 ^ SIZEOF_UINT ∧
    (∀ x, (x < 4096 ∨ 4096 + LOOM_ALLOCATOR_METADATA_SIZE ≤ x) →
      (loom_newArray_inject 32 sampleClass 4096 3 dirtyWorld).world.mem x = dirtyWorld.mem x) ∧
    (loom_newArray_inject 32 sampleClass 4096 3 dirtyWorld).value
      = some (sizeAdd 32 4096 LOOM_ALLOCATOR_METADATA_SIZE) ∧
    sizeAdd 32 4096 LOOM_ALLOCATOR_METADATA_SIZE % 16 = 0 ∧
    (4096 + LOOM_ALLOCATOR_METADATA_SIZE) % 16 = 0) :=
  ⟨⟨by decide, by decide, by decide⟩,
   C11_metadata_size_alignment 32 sampleClass 3 4096 dirtyWorld
     (by decide) (by decide) (by decide)⟩

/-- C12: `loom_destructInPlace(t)` returns its argument in every case. For a
null pointer it returns null and leaves the state as it was (no destructor
call). For a non-null pointer it makes exactly one destructor call, on `t`,
and no call to the allocator, and returns `t`; so `lmDelete` and
`lmSafeDelete` hand to `lmFree` exactly the address of the destructed object,
and `lmSafeDelete` leaves the variable null. -/
theorem C12_destructInPlace_returns_argument (T : ElemType) (a t : Nat) (σ : World) :
    (loom_destructInPlace T t σ).1 = t ∧
    (loom_destructInPlace T 0 σ) = (0, σ) ∧
    (t ≠ 0 → (loom_destructInPlace T t σ).2.trace = σ.trace ++ [Event.destruct t]) ∧
    (t ≠ 0 → (lmDelete T a t σ).trace = σ.trace ++ [Event.destruct t, Event.lmFree a t]) ∧
    (t ≠ 0 → (lmSafeDelete T a t σ).1 = 0 ∧
      (lmSafeDelete T a t σ).2.trace = σ.trace ++ [Event.destruct t, Event.lmFree a t]) := by
  refine ⟨?_, by simp [loom_destructInPlace], ?_, ?_, ?_⟩
  · by_cases h : t = 0
    · simp [loom_destructInPlace, h]
    · simp [loom_destructInPlace, h]
  · intro h
    simp [loom_destructInPlace, h]
  · intro h
    simp [lmDelete, loom_destructInPlace, h, lmFree]
  · intro h
    simp [lmSafeDelete, loom_destructInPlace, h, lmFree]

/-- C12 at a concrete input: the object at 4112 is destructed and freed. -/
theorem C12_destructInPlace_returns_argument_witness :
    (loom_destructInPlace sampleClass 4112 dirtyWorld).1 = 4112 ∧
    (loom_destructInPlace sampleClass 4112 dirtyWorld).2.trace = [Event.destruct 4112] ∧
    (lmDelete sampleClass 7 4112 dirtyWorld).trace
      = [Event.destruct 4112, Event.lmFree 7 4112] ∧
    (lmSafeDelete sampleClass 7 4112 dirtyWorld).1 = 0 ∧
    (lmSafeDelete sampleClass 7 4112 dirtyWorld).2.trace
      = [Event.destruct 4112, Event.lmFree 7 4112] :=
  have h := C12_destructInPlace_returns_argument sampleClass 7 4112 dirtyWorld
  ⟨h.1, h.2.2.1 (by decide), h.2.2.2.1 (by decide), (h.2.2.2.2 (by decide)).1,
    (h.2.2.2.2 (by decide)).2⟩

/-! ## Byte array lemmas -/

theorem utArray_resize_length (fill : Nat → Nat) (d : List Nat) (nr : Nat) :
    (utArray.resize fill d nr).length = nr := by
  simp only [utArray.resize, List.length_append, List.length_take, List.length_map,
    List.length_range]
  omega

theorem utArray_resize_getElem? (fill : Nat → Nat) (d : List Nat) (nr i : Nat)
    (hi : i < min d.length nr) : (utArray.resize fill d nr)[i]? = d[i]? := by
  have h1 : i < d.length := by omega
  have h2 : i < nr := by omega
  unfold utArray.resize
  rw [List.getElem?_append_left (by rw [List.length_take]; omega), List.getElem?_take, if_pos h2]

theorem memcpyUnaligned_succ (d : List Nat) (off : Nat) (src : Nat → Nat) (n : Nat) :
    memcpyUnaligned d off src (n + 1) = (memcpyUnaligned d off src n).set (off + n) (src n) := by
  simp only [memcpyUnaligned, List.range_succ, List.foldl_append, List.foldl_cons, List.foldl_nil]

theorem memcpyUnaligned_length (d : List Nat) (off : Nat) (src : Nat → Nat) (n : Nat) :
    (memcpyUnaligned d off src n).length = d.length := by
  induction n with
  | zero => simp [memcpyUnaligned]
  | succ n ih => rw [memcpyUnaligned_succ, List.length_set, ih]

/-- The bytes of a buffer after a copy that stays inside it: the copied span
holds the source, every other byte is as before. -/
theorem memcpyUnaligned_getElem? (d : List Nat) (off : Nat) (src : Nat → Nat) (n j : Nat)
    (hfit : off + n ≤ d.length) :
    (memcpyUnaligned d off src n)[j]?
      = if off ≤ j ∧ j < off + n then some (src (j - off)) else d[j]? := by
  induction n with
  | zero =>
    rw [if_neg (by omega)]
    simp [memcpyUnaligned]
  | succ n ih =>
    rw [memcpyUnaligned_succ, List.getElem?_set, memcpyUnaligned_length, ih (by omega)]
    by_cases hj : off + n = j
    · subst hj
      simp only [if_true]
      rw [if_pos (by omega), if_pos ⟨by omega, by omega⟩, Nat.add_sub_cancel_left]
    · rw [if_neg hj]
      by_cases h1 : off ≤ j ∧ j < off + n
      · rw [if_pos h1, if_pos ⟨h1.1, by omega⟩]
      · rw [if_neg h1, if_neg (by omega)]

theorem memcpyUnaligned_replicate (k : Nat) (src : Nat → Nat) :
    memcpyUnaligned (List.replicate k 0) 0 src k = (List.range k).map src := by
  apply List.ext_getElem?
  intro j
  rw [memcpyUnaligned_getElem? _ _ _ _ _ (by simp), List.getElem?_map]
  by_cases hj : j < k
  · rw [if_pos ⟨by omega, by omega⟩, List.getElem?_range hj]
    simp
  · rw [if_neg (by omega), List.getElem?_eq_none (by simp; omega),
      List.getElem?_eq_none (by simp; omega)]
    rfl

theorem toBytesLE_length (k v : Nat) : (toBytesLE k v).length = k := by
  simp [toBytesLE]

theorem toBytesLE_succ (k v : Nat) :
    toBytesLE (k + 1) v = v % 256 :: toBytesLE k (v / 256) := by
  simp only [toBytesLE, List.range_succ_eq_map, List.map_cons, List.map_map, pow_zero,
    Nat.div_one]
  congr 1
  apply List.map_congr_left
  intro i _
  simp only [Function.comp, Nat.succ_eq_add_one, pow_succ]
  rw [Nat.div_div_eq_div_mul, Nat.mul_comm]

theorem toBytesLE_lt (k v b : Nat) (hb : b ∈ toBytesLE k v) : b < 256 := by
  simp only [toBytesLE, List.mem_map] at hb
  obtain ⟨i, _, rfl⟩ := hb
  exact Nat.mod_lt _ (by decide)

theorem fromBytesLE_toBytesLE (k v : Nat) (hv : v < 256 ^ k) :
    fromBytesLE (toBytesLE k v) = v := by
  induction k generalizing v with
  | zero =>
    simp at hv
    simp [toBytesLE, fromBytesLE, hv]
  | succ k ih =>
    rw [toBytesLE_succ]
    have hdiv : v / 256 < 256 ^ k := by
      rw [Nat.div_lt_iff_lt_mul (by decide)]
      rw [pow_succ] at hv
      exact hv
    have := ih (v / 256) hdiv
    simp only [fromBytesLE, List.foldr_cons] at this ⊢
    rw [this]
    omega

theorem toBytesLE_fromBytesLE (bs : List Nat) (hbs : ∀ b, b ∈ bs → b < 256) :
    toBytesLE bs.length (fromBytesLE bs) = bs := by
  induction bs with
  | nil => simp [toBytesLE]
  | cons b bs ih =>
    have hb : b < 256 := hbs b (List.mem_cons_self _ _)
    have ih1 := ih (fun c hc => hbs c (List.mem_cons_of_mem _ hc))
    rw [List.length_cons, toBytesLE_succ]
    have e : fromBytesLE (b :: bs) = b % 256 + 256 * fromBytesLE bs := rfl
    rw [e]
    have h1 : (b % 256 + 256 * fromBytesLE bs) % 256 = b := by omega
    have h2 : (b % 256 + 256 * fromBytesLE bs) / 256 = fromBytesLE bs := by omega
    rw [h1, h2, ih1]

/-- What `writeValue` copies into the array is the little-endian encoding of
the value, on a host of either byte order. -/
theorem objectBytes_convertHostToLEndian (bigEndian : Bool) (k v : Nat) :
    objectBytes bigEndian k (convertHostToLEndian bigEndian k v) = toBytesLE k v := by
  cases bigEndian with
  | false => simp [objectBytes, convertHostToLEndian]
  | true =>
    simp only [objectBytes, convertHostToLEndian, byteSwap, if_true]
    have hlen : (toBytesLE k v).reverse.length = k := by simp [toBytesLE_length]
    have h := toBytesLE_fromBytesLE (toBytesLE k v).reverse
      (fun b hb => toBytesLE_lt k v b (List.mem_reverse.mp hb))
    rw [hlen] at h
    rw [h, List.reverse_reverse]

/-- What `readValue` makes of the little-endian encoding of a value is the
value, on a host of either byte order. -/
theorem convertLEndianToHost_objectValue (bigEndian : Bool) (k v : Nat) (hv : v < 256 ^ k) :
    convertLEndianToHost bigEndian k (objectValue bigEndian (toBytesLE k v)) = v := by
  cases bigEndian with
  | false => simp [objectValue, convertLEndianToHost, fromBytesLE_toBytesLE k v hv]
  | true =>
    simp only [objectValue, convertLEndianToHost, byteSwap, if_true]
    have hlen : (toBytesLE k v).reverse.length = k := by simp [toBytesLE_length]
    have h := toBytesLE_fromBytesLE (toBytesLE k v).reverse
      (fun b hb => toBytesLE_lt k v b (List.mem_reverse.mp hb))
    rw [hlen] at h
    rw [h, List.reverse_reverse, fromBytesLE_toBytesLE k v hv]

theorem uint_range_le_wide (w : Nat) : UINT_RANGE ≤ 2 ^ wideBits w := by
  unfold UINT_RANGE wideBits
  exact Nat.pow_le_pow_right (by decide) (Nat.le_max_left 32 w)

theorem toBytesLE_getD (k v i : Nat) (hi : i < k) :
    (toBytesLE k v).getD i 0 = v / 256 ^ i % 256 := by
  rw [List.getD_eq_getElem?_getD]
  simp only [toBytesLE, List.getElem?_map, List.getElem?_range hi, Option.map_some',
    Option.getD_some]

/-- The array after `writeValue` at a position where `_position + sizeof(T)`
fits a `UTsize`: the array has grown to hold the value if it had to, the span
holds the little-endian bytes of the value, the position is past them. -/
theorem writeValue_in_range (w : Nat) (bigEndian : Bool) (fill : Nat → Nat) (k v p : Nat)
    (d : List Nat) (hp : p + k < UINT_RANGE) :
    ∃ d2 : List Nat,
      utByteArray.writeValue w bigEndian fill k v { _data := d, _position := p }
        = { _data := d2, _position := p + k } ∧
      d2.length = max d.length (p + k) ∧
      (∀ i, i < k → d2[p + i]? = some (v / 256 ^ i % 256)) := by
  have hwide := uint_range_le_wide w
  have hneed : sizeAdd (wideBits w) p k = p + k := sizeAdd_of_lt (by omega)
  have hmod : (p + k) % UINT_RANGE = p + k := Nat.mod_eq_of_lt hp
  refine ⟨memcpyUnaligned (if d.length < p + k then utArray.resize fill d (p + k) else d) p
    (fun i => (toBytesLE k v).getD i 0) k, ?_, ?_, ?_⟩
  · simp only [utByteArray.writeValue, hneed, hmod, objectBytes_convertHostToLEndian]
  · rw [memcpyUnaligned_length]
    by_cases h : d.length < p + k
    · rw [if_pos h, utArray_resize_length]
      omega
    · rw [if_neg h]
      omega
  · intro i hi
    have hlen : p + k ≤ (if d.length < p + k then utArray.resize fill d (p + k) else d).length := by
      by_cases h : d.length < p + k
      · rw [if_pos h, utArray_resize_length]
      · rw [if_neg h]
        omega
    rw [memcpyUnaligned_getElem? _ _ _ _ _ hlen, if_pos ⟨by omega, by omega⟩,
      Nat.add_sub_cancel_left, toBytesLE_getD k v i hi]

/-- C18, as stated, fails: on a target with a 32-bit `size_t`, after
`setPosition(0xFFFFFFFF)` on an array of eight bytes, `writeValue<int>(5)`
finds `_position + sizeof(T)` wrapped to 3, does not grow the array, stores
nothing inside it and leaves the position at 3; after `setPosition(0xFFFFFFFF)`
the `readValue<int>()` fails its assertion instead of returning 5. With a
64-bit `size_t` the array is cut to `(UTsize) 0x100000003 = 3` bytes and the
position is 3 as well. -/
theorem C18_scalar_round_trip_counterexample :
    (5 < 256 ^ 4 ∧ 2 ^ 32 - 1 < UINT_RANGE) ∧
    utByteArray.writeValue 32 false (fun _ => 0) 4 5
        { _data := [0, 0, 0, 0, 0, 0, 0, 0], _position := 2 ^ 32 - 1 }
      = { _data := [0, 0, 0, 0, 0, 0, 0, 0], _position := 3 } ∧
    (3 : Nat) ≠ 2 ^ 32 - 1 + 4 ∧
    utByteArray.readValue 32 false (fun _ => 0) 4
        ((utByteArray.writeValue 32 false (fun _ => 0) 4 5
          { _data := [0, 0, 0, 0, 0, 0, 0, 0], _position := 2 ^ 32 - 1 }).setPosition
            (2 ^ 32 - 1))
      = none ∧
    utByteArray.writeValue 64 false (fun _ => 0) 4 5
        { _data := [0, 0, 0, 0, 0, 0, 0, 0], _position := 2 ^ 32 - 1 }
      = { _data := [0, 0, 0], _position := 3 } := by
  refine ⟨⟨by decide, by decide⟩, by decide, by decide, by decide, by decide⟩

/-- C18, amended: for every scalar value `v` of a type of `k` bytes (`bool`,
the 8, 16, 32 and 64-bit integers) and every starting position `p` for which
`p + sizeof(T)` is still a `UTsize` (below `2 ^ 32`), on an array whose size is
a `UTsize`, `writeValue<T>(v)` stores the little-endian encoding of `v` at the
indices `[p, p + sizeof(T))` and sets the position to `p + sizeof(T)`; then
`setPosition(p)` followed by `readValue<T>()` returns `v` and leaves the
position at `p + sizeof(T)`, the array being the one after the write. This
holds on a little-endian and on a big-endian host. -/
theorem C18_scalar_round_trip (w : Nat) (bigEndian : Bool) (fill : Nat → Nat) (k v p : Nat)
    (d : List Nat) (hv : v < 256 ^ k) (hp : p + k < UINT_RANGE) (hd : d.length < UINT_RANGE) :
    (utByteArray.writeValue w bigEndian fill k v { _data := d, _position := p }).getPosition
      = p + k ∧
    (∀ i, i < k →
      (utByteArray.writeValue w bigEndian fill k v { _data := d, _position := p })._data[p + i]?
        = some (v / 256 ^ i % 256)) ∧
    utByteArray.readValue w bigEndian fill k
        ((utByteArray.writeValue w bigEndian fill k v
          { _data := d, _position := p }).setPosition p)
      = some (v, utByteArray.writeValue w bigEndian fill k v { _data := d, _position := p }) ∧
    ((utByteArray.writeValue w bigEndian fill k v
        { _data := d, _position := p }).setPosition p).getPosition = p := by
  obtain ⟨d2, hw, hlen, hbytes⟩ := writeValue_in_range w bigEndian fill k v p d hp
  have hwide := uint_range_le_wide w
  rw [hw]
  refine ⟨rfl, hbytes, ?_, rfl⟩
  have hL : d2.length - k + k = d2.length := by omega
  have hsub : sizeSub (wideBits w) d2.length k = d2.length - k := by
    have h := @sizeSub_add_cancel (wideBits w) (d2.length - k) k (by omega)
    rw [hL] at h
    exact h
  have hraw : (List.range k).map (fun i => byteAt fill d2 (p + i)) = toBytesLE k v := by
    unfold toBytesLE
    apply List.map_congr_left
    intro i hi
    have hi1 : i < k := by simpa using hi
    simp only [byteAt, List.getD_eq_getElem?_getD, hbytes i hi1, Option.getD_some]
  have hassert : p ≤ d2.length - k := by omega
  simp only [utByteArray.readValue, utByteArray.setPosition, lmAssert, hsub, hassert,
    decide_True, if_true, memcpyUnaligned_replicate, hraw,
    convertLEndianToHost_objectValue bigEndian k v hv, Nat.mod_eq_of_lt hp]

/-- C18, amended, at a concrete input: the 32-bit value `0x11223344` written at
position 1 of a three-byte array on a big-endian host. -/
theorem C18_scalar_round_trip_witness :
    (0x11223344 < 256 ^ 4 ∧ 1 + 4 < UINT_RANGE ∧ [1, 2, 3].length < UINT_RANGE) ∧
    ((utByteArray.writeValue 64 true (fun _ => 0xEE) 4 0x11223344
        { _data := [1, 2, 3], _position := 1 }).getPosition = 1 + 4 ∧
    (∀ i, i < 4 →
      (utByteArray.writeValue 64 true (fun _ => 0xEE) 4 0x11223344
        { _data := [1, 2, 3], _position := 1 })._data[1 + i]?
        = some (0x11223344 / 256 ^ i % 256)) ∧
    utByteArray.readValue 64 true (fun _ => 0xEE) 4
        ((utByteArray.writeValue 64 true (fun _ => 0xEE) 4 0x11223344
          { _data := [1, 2, 3], _position := 1 }).setPosition 1)
      = some (0x11223344, utByteArray.writeValue 64 true (fun _ => 0xEE) 4 0x11223344
          { _data := [1, 2, 3], _position := 1 }) ∧
    ((utByteArray.writeValue 64 true (fun _ => 0xEE) 4 0x11223344
        { _data := [1, 2, 3], _position := 1 }).setPosition 1).getPosition = 1) :=
  ⟨⟨by decide, by decide, by decide⟩,
   C18_scalar_round_trip 64 true (fun _ => 0xEE) 4 0x11223344 1 [1, 2, 3]
     (by decide) (by decide) (by decide)⟩

/-- C19: `writeUTF` fails its assertion exactly when the length of the string
(as a `UTsize`) is 65535 or more, not only when it is larger than 65535: for
the string of 65535 bytes `A` the assertion `length < 0xFFFF` fails and
nothing is written, although the length fits the 16-bit prefix. A null string
passes (a 16-bit zero is written). -/
theorem C19_writeUTF_length_assertion (w : Nat) (bigEndian : Bool) (fill : Nat → Nat)
    (s : List Nat) (a : utByteArray) :
    ((utByteArray.writeUTF w bigEndian fill (some s) a).isSome
      ↔ strlen s % UINT_RANGE < 0xFFFF) ∧
    strlen (List.replicate 65535 65) = 65535 ∧
    utByteArray.writeUTF w bigEndian fill (some (List.replicate 65535 65)) a = none ∧
    utByteArray.writeUTF w bigEndian fill none a
      = some (utByteArray.writeValue w bigEndian fill 2 0 a) := by
  have hlen : strlen (List.replicate 65535 65) = 65535 := by
    unfold strlen
    rw [List.takeWhile_replicate, if_pos (by decide), List.length_replicate]
  refine ⟨?_, hlen, ?_, rfl⟩
  · by_cases h : strlen s % UINT_RANGE < 0xFFFF
    · simp [utByteArray.writeUTF, lmAssert, h]
    · simp [utByteArray.writeUTF, lmAssert, h]
  · have h : ¬ (65535 % UINT_RANGE < 0xFFFF) := by decide
    simp only [utByteArray.writeUTF, lmAssert, hlen, h, decide_False, Bool.false_eq_true,
      if_false]

/-- C20: `resize(n)` sets the size of the array directly: afterwards
`getSize()` is `n`, `getPosition()` is the smaller of the previous position and
`n`, so the position is not beyond the size, and the first `min(old size, n)`
bytes are the ones the array had. -/
theorem C20_resize (fill : Nat → Nat) (a : utByteArray) (n : Nat) :
    (utByteArray.resize fill a n).getSize = n ∧
    (utByteArray.resize fill a n).getPosition = min a.getPosition n ∧
    (utByteArray.resize fill a n).getPosition ≤ (utByteArray.resize fill a n).getSize ∧
    (∀ i, i < min a.getSize n → (utByteArray.resize fill a n)._data[i]? = a._data[i]?) := by
  have hsize : (utByteArray.resize fill a n).getSize = n := by
    simp only [utByteArray.resize, utByteArray.getSize, utArray_resize_length]
  have hpos : (utByteArray.resize fill a n).getPosition = min a.getPosition n := by
    simp only [utByteArray.resize, utByteArray.getPosition]
    by_cases h : a._position > n
    · rw [if_pos h]
      omega
    · rw [if_neg h]
      omega
  refine ⟨hsize, hpos, ?_, ?_⟩
  · rw [hsize, hpos]
    exact Nat.min_le_right _ _
  · intro i hi
    exact utArray_resize_getElem? fill a._data n i hi

/-! ## Tables of outstanding allocations -/

theorem totalSize_cons (e : Nat × Nat) (l : List (Nat × Nat)) :
    totalSize (e :: l) = e.2 + totalSize l := by
  simp [totalSize]

/-- Removing the entry found under a key takes its size off the total and one
off the count. -/
theorem removeKey_totalSize (k s : Nat) (l : List (Nat × Nat)) (h : findKey k l = some s) :
    totalSize (removeKey k l) + s = totalSize l ∧ (removeKey k l).length + 1 = l.length := by
  induction l with
  | nil => simp [findKey] at h
  | cons e l ih =>
    by_cases he : e.1 = k
    · simp only [findKey, if_pos he, Option.some.injEq] at h
      simp only [removeKey, if_pos he, totalSize_cons, List.length_cons]
      exact ⟨by omega, trivial⟩
    · simp only [findKey, if_neg he] at h
      obtain ⟨h1, h2⟩ := ih h
      simp only [removeKey, if_neg he, totalSize_cons, List.length_cons]
      exact ⟨by omega, by omega⟩

/-- A tracking proxy is exact when its counters are the total size and the
number of the entries of its table. A call that succeeds keeps it exact and
changes the table as the reference set changes. -/
theorem tracker_step_exact (w : Nat) (t t1 : TrackerProxy) (op : AllocOp)
    (hb : t.allocatedBytes = totalSize t.hidden) (hc : t.allocatedCount = t.hidden.length)
    (hstep : TrackerProxy.step w t op = some t1) :
    t1.allocatedBytes = totalSize t1.hidden ∧ t1.allocatedCount = t1.hidden.length ∧
    outstanding w [op] t.hidden = t1.hidden := by
  cases op with
  | allocate size blk =>
    by_cases h0 : blk = 0
    · simp [TrackerProxy.step, TrackerProxy.allocCall, h0] at hstep
    · simp only [TrackerProxy.step, TrackerProxy.allocCall, if_neg h0, Option.map_some',
        Option.some.injEq] at hstep
      subst hstep
      simp only [totalSize_cons, List.length_cons, outstanding]
      exact ⟨by omega, by omega, trivial⟩
  | free ptr =>
    by_cases h0 : ptr = 0
    · simp only [TrackerProxy.step, TrackerProxy.freeCall, if_pos h0, Option.some.injEq] at hstep
      subst hstep
      simp [outstanding, h0, hb, hc]
    · simp only [TrackerProxy.step, TrackerProxy.freeCall, if_neg h0] at hstep
      cases hf : findKey ptr t.hidden with
      | none => simp [hf] at hstep
      | some size =>
        simp only [hf, Option.some.injEq] at hstep
        subst hstep
        obtain ⟨h1, h2⟩ := removeKey_totalSize ptr size t.hidden hf
        simp only [outstanding, if_neg h0]
        exact ⟨by omega, by omega, trivial⟩
  | reallocate ptr newSize blk =>
    by_cases h0 : ptr = 0
    · by_cases hb0 : blk = 0
      · simp [TrackerProxy.step, TrackerProxy.reallocCall, TrackerProxy.allocCall, h0, hb0]
          at hstep
      · simp only [TrackerProxy.step, TrackerProxy.reallocCall, TrackerProxy.allocCall,
          if_pos h0, if_neg hb0, Option.map_some', Option.some.injEq] at hstep
        subst hstep
        simp only [totalSize_cons, List.length_cons, outstanding, if_pos h0]
        exact ⟨by omega, by omega, trivial⟩
    · simp only [TrackerProxy.step, TrackerProxy.reallocCall, if_neg h0] at hstep
      cases hf : findKey ptr t.hidden with
      | none => simp [hf] at hstep
      | some oldSize =>
        by_cases hb0 : blk = 0
        · simp [hf, hb0] at hstep
        · simp only [hf, if_neg hb0, Option.map_some', Option.some.injEq] at hstep
          subst hstep
          obtain ⟨h1, h2⟩ := removeKey_totalSize ptr oldSize t.hidden hf
          simp only [totalSize_cons, List.length_cons, outstanding, if_neg h0]
          exact ⟨by omega, by omega, trivial⟩

theorem outstanding_cons (w : Nat) (op : AllocOp) (ops : List AllocOp) (live : List (Nat × Nat)) :
    outstanding w (op :: ops) live = outstanding w ops (outstanding w [op] live) := by
  cases op <;> simp [outstanding]

theorem tracker_run_exact (w : Nat) (ops : List AllocOp) (t t1 : TrackerProxy)
    (hb : t.allocatedBytes = totalSize t.hidden) (hc : t.allocatedCount = t.hidden.length)
    (hrun : TrackerProxy.run w ops t = some t1) :
    t1.allocatedBytes = totalSize t1.hidden ∧ t1.allocatedCount = t1.hidden.length ∧
    outstanding w ops t.hidden = t1.hidden := by
  induction ops generalizing t with
  | nil =>
    simp only [TrackerProxy.run, Option.some.injEq] at hrun
    subst hrun
    exact ⟨hb, hc, rfl⟩
  | cons op ops ih =>
    cases hs : TrackerProxy.step w t op with
    | none => simp [TrackerProxy.run, hs] at hrun
    | some t2 =>
      simp only [TrackerProxy.run, hs] at hrun
      obtain ⟨hb2, hc2, ho2⟩ := tracker_step_exact w t t2 op hb hc hs
      obtain ⟨hb1, hc1, ho1⟩ := ih t2 hb2 hc2 hrun
      refine ⟨hb1, hc1, ?_⟩
      rw [outstanding_cons, ho2, ho1]

/-- C13: tracking proxy exactness. After every finite sequence of allocate,
free and reallocate calls made through one tracking proxy, starting from a
fresh proxy and with no call fatal or undefined, the pair reported by
`loom_allocator_getTrackerProxyStats` is (sum of the requested sizes of the
outstanding allocations, number of outstanding allocations), the outstanding
allocations being the reference set computed from the calls, which is also the
table of hidden prefixes; and each allocation costs the parent `sizeof(size_t)`
bytes more than requested, the pointer handed out being that much past the
parent's block. -/
theorem C13_tracker_stats_exact (w : Nat) (ops : List AllocOp) (t : TrackerProxy)
    (hrun : TrackerProxy.run w ops loom_allocator_initializeTrackerProxyAllocator = some t) :
    loom_allocator_getTrackerProxyStats t
      = (totalSize (outstanding w ops []), (outstanding w ops []).length) ∧
    t.hidden = outstanding w ops [] ∧
    (∀ size blk ptr t1, TrackerProxy.allocCall w t size blk = some (ptr, t1) →
      ptr = blk + sizeofSizeT w ∧
      t1.parentCalls = t.parentCalls ++ [ParentCall.allocate (size + sizeofSizeT w) blk]) := by
  obtain ⟨hb, hc, ho⟩ := tracker_run_exact w ops
    loom_allocator_initializeTrackerProxyAllocator t rfl rfl hrun
  have ho1 : outstanding w ops [] = t.hidden := ho
  refine ⟨?_, ho1.symm, ?_⟩
  · simp only [loom_allocator_getTrackerProxyStats, ho1, hb, hc]
  · intro size blk ptr t1 h
    by_cases h0 : blk = 0
    · simp [TrackerProxy.allocCall, h0] at h
    · simp only [TrackerProxy.allocCall, if_neg h0, Option.some.injEq, Prod.mk.injEq] at h
      obtain ⟨hp, ht⟩ := h
      subst ht
      exact ⟨hp.symm, rfl⟩

/-- C13 at a concrete input: two allocations of 10 and 20 bytes, the first
reallocated to 30 bytes, the second freed: 30 bytes in one allocation. -/
theorem C13_tracker_stats_exact_witness :
    TrackerProxy.run 64 sampleOps loom_allocator_initializeTrackerProxyAllocator
      = some { allocatedBytes := 30, allocatedCount := 1, hidden := [(12296, 30)],
               parentCalls := [ParentCall.allocate 18 4096, ParentCall.allocate 28 8192,
                 ParentCall.reallocate 4096 38 12288, ParentCall.free 8192] } ∧
    loom_allocator_getTrackerProxyStats
        { allocatedBytes := 30, allocatedCount := 1, hidden := [(12296, 30)],
          parentCalls := [ParentCall.allocate 18 4096, ParentCall.allocate 28 8192,
            ParentCall.reallocate 4096 38 12288, ParentCall.free 8192] }
      = (totalSize (outstanding 64 sampleOps []), (outstanding 64 sampleOps []).length) ∧
    (totalSize (outstanding 64 sampleOps []), (outstanding 64 sampleOps []).length) = (30, 1) :=
  ⟨by decide, (C13_tracker_stats_exact 64 sampleOps _ (by decide)).1, by decide⟩

/-! ## The fixed pool -/

/-- A run of requests no larger than `itemSize` on a pool with at least as
many free slots hands out the first free slots, in order. -/
theorem allocMany_take (sizes : List Nat) (p : FixedPool)
    (hlen : sizes.length ≤ p.freeList.length) (hsizes : ∀ s, s ∈ sizes → s ≤ p.itemSize) :
    FixedPool.allocMany sizes p
      = some ((p.freeList.take sizes.length).map p.slotAddr,
              { p with freeList := p.freeList.drop sizes.length }) := by
  induction sizes generalizing p with
  | nil => simp [FixedPool.allocMany]
  | cons s sizes ih =>
    have hs : s ≤ p.itemSize := hsizes s (List.mem_cons_self _ _)
    cases hf : p.freeList with
    | nil => simp [hf] at hlen
    | cons slot rest =>
      rw [hf] at hlen
      have hlen1 : sizes.length ≤ rest.length := by simpa using hlen
      have h1 := ih { p with freeList := rest } hlen1
        (fun x hx => hsizes x (List.mem_cons_of_mem _ hx))
      simp only [FixedPool.allocMany, FixedPool.allocCall, if_pos hs, hf, h1,
        List.length_cons, List.take_succ_cons, List.drop_succ_cons, List.map_cons]
      rfl

/-- C14: fixed pool exhaustion. For a fixed pool created with `itemCount = N`
and items of a size that is not zero, and requests no larger than `itemSize`:
the first `N` allocations with no free in between succeed, with the `N`
distinct slots `block + i * itemSize`, each inside `[block, block +
itemSize*itemCount)`; the allocation after them fails with a null result and
leaves the pool, and so the `N` allocations, as they are; after freeing any
one slot exactly one more allocation succeeds (with that slot) and the next
one fails again. -/
theorem C14_fixed_pool_exhaustion (itemSize N blk : Nat) (sizes : List Nat) (s1 s2 s3 j : Nat)
    (hitem : 0 < itemSize) (hblk : blk ≠ 0) (hlen : sizes.length = N)
    (hsizes : ∀ s, s ∈ sizes → s ≤ itemSize)
    (h1 : s1 ≤ itemSize) (h2 : s2 ≤ itemSize) (h3 : s3 ≤ itemSize) (hj : j < N) :
    ∃ pool full : FixedPool,
      loom_allocator_initializeFixedPoolAllocator itemSize N blk
        = some (ParentCall.allocate (itemSize * N) blk, pool) ∧
      FixedPool.allocMany sizes pool = some ((List.range N).map pool.slotAddr, full) ∧
      (∀ i, i < N → blk ≤ pool.slotAddr i ∧ pool.slotAddr i + itemSize ≤ blk + itemSize * N) ∧
      (∀ i k, i < N → k < N → i ≠ k → pool.slotAddr i ≠ pool.slotAddr k) ∧
      FixedPool.allocCall full s1 = some (0, full) ∧
      ∃ freed : FixedPool,
        FixedPool.freeCall full (pool.slotAddr j) = some freed ∧
        FixedPool.allocCall freed s2 = some (pool.slotAddr j, full) ∧
        pool.slotAddr j ≠ 0 ∧
        FixedPool.allocCall full s3 = some (0, full) := by
  refine ⟨{ block := blk, itemSize := itemSize, itemCount := N, freeList := List.range N },
    { block := blk, itemSize := itemSize, itemCount := N, freeList := [] }, ?_, ?_, ?_, ?_, ?_,
    { block := blk, itemSize := itemSize, itemCount := N, freeList := [j] }, ?_, ?_, ?_, ?_⟩
  · simp [loom_allocator_initializeFixedPoolAllocator, hblk]
  · rw [allocMany_take sizes _ (by simp [hlen]) hsizes]
    simp [hlen]
  · intro i hi
    have hmul : (i + 1) * itemSize ≤ N * itemSize := Nat.mul_le_mul_right _ hi
    have e1 : (i + 1) * itemSize = i * itemSize + itemSize := by ring
    have e2 : itemSize * N = N * itemSize := Nat.mul_comm _ _
    simp only [FixedPool.slotAddr]
    exact ⟨by omega, by omega⟩
  · intro i k _ _ hik heq
    simp only [FixedPool.slotAddr] at heq
    have : i * itemSize = k * itemSize := by omega
    exact hik (Nat.eq_of_mul_eq_mul_right hitem this)
  · simp [FixedPool.allocCall, h1]
  · have hmul : (j + 1) * itemSize ≤ N * itemSize := Nat.mul_le_mul_right _ hj
    have e1 : (j + 1) * itemSize = j * itemSize + itemSize := by ring
    have e2 : itemSize * N = N * itemSize := Nat.mul_comm _ _
    have hne : blk + j * itemSize ≠ 0 := by omega
    have hin : blk ≤ blk + j * itemSize ∧ blk + j * itemSize < blk + itemSize * N := by
      exact ⟨by omega, by omega⟩
    have hdiv : (blk + j * itemSize - blk) / itemSize = j := by
      rw [Nat.add_sub_cancel_left, Nat.mul_div_cancel _ hitem]
    simp only [FixedPool.freeCall, FixedPool.slotAddr, if_neg hne, hin, and_self, if_true, hdiv]
  · simp [FixedPool.allocCall, h2, FixedPool.slotAddr]
  · simp only [FixedPool.slotAddr]
    omega
  · simp [FixedPool.allocCall, h3]

/-- C14 at a concrete input: a pool of four items of 32 bytes at 4096; the
slot of the third allocation is freed and handed out again. -/
theorem C14_fixed_pool_exhaustion_witness :
    (0 < 32 ∧ 4096 ≠ 0 ∧ [32, 8, 1, 0].length = 4 ∧ (∀ s, s ∈ [32, 8, 1, 0] → s ≤ 32) ∧
      5 ≤ 32 ∧ 6 ≤ 32 ∧ 7 ≤ 32 ∧ 2 < 4) ∧
    ∃ pool full : FixedPool,
      loom_allocator_initializeFixedPoolAllocator 32 4 4096
        = some (ParentCall.allocate (32 * 4) 4096, pool) ∧
      FixedPool.allocMany [32, 8, 1, 0] pool = some ((List.range 4).map pool.slotAddr, full) ∧
      (∀ i, i < 4 → 4096 ≤ pool.slotAddr i ∧ pool.slotAddr i + 32 ≤ 4096 + 32 * 4) ∧
      (∀ i k, i < 4 → k < 4 → i ≠ k → pool.slotAddr i ≠ pool.slotAddr k) ∧
      FixedPool.allocCall full 5 = some (0, full) ∧
      ∃ freed : FixedPool,
        FixedPool.freeCall full (pool.slotAddr 2) = some freed ∧
        FixedPool.allocCall freed 6 = some (pool.slotAddr 2, full) ∧
        pool.slotAddr 2 ≠ 0 ∧
        FixedPool.allocCall full 7 = some (0, full) :=
  ⟨⟨by decide, by decide, by decide, by decide, by decide, by decide, by decide, by decide⟩,
   C14_fixed_pool_exhaustion 32 4 4096 [32, 8, 1, 0] 5 6 7 2 (by decide) (by decide)
     (by decide) (by decide) (by decide) (by decide) (by decide) (by decide)⟩

/-! ## The arena proxy -/

theorem findKey_append_left (k : Nat) (l1 l2 : List (Nat × Nat)) (h : k ∈ l1.map Prod.fst) :
    findKey k (l1 ++ l2) = findKey k l1 ∧ ∃ s, findKey k l1 = some s := by
  induction l1 with
  | nil => simp at h
  | cons e l ih =>
    by_cases he : e.1 = k
    · simp [findKey, he]
    · have hk : k ∈ l.map Prod.fst := by
        simp only [List.map_cons, List.mem_cons] at h
        rcases h with h | h
        · exact absurd h.symm he
        · exact h
      simpa [findKey, he] using ih hk

theorem removeKey_append_left (k : Nat) (l1 l2 : List (Nat × Nat)) (h : k ∈ l1.map Prod.fst) :
    removeKey k (l1 ++ l2) = removeKey k l1 ++ l2 := by
  induction l1 with
  | nil => simp at h
  | cons e l ih =>
    by_cases he : e.1 = k
    · simp [removeKey, he]
    · have hk : k ∈ l.map Prod.fst := by
        simp only [List.map_cons, List.mem_cons] at h
        rcases h with h | h
        · exact absurd h.symm he
        · exact h
      simp [removeKey, he, ih hk]

theorem map_fst_removeKey (k : Nat) (l : List (Nat × Nat)) :
    (removeKey k l).map Prod.fst = (l.map Prod.fst).erase k := by
  induction l with
  | nil => simp [removeKey]
  | cons e l ih =>
    by_cases he : e.1 = k
    · simp [removeKey, he]
    · have hbeq : (e.1 == k) = false := by simpa using he
      simp [removeKey, he, ih, List.erase_cons, hbeq]

theorem tracker_freeCall_found (w : Nat) (t : TrackerProxy) (ptr s : Nat) (h0 : ptr ≠ 0)
    (hf : findKey ptr t.hidden = some s) :
    TrackerProxy.freeCall w t ptr
      = some { allocatedBytes := t.allocatedBytes - s,
               allocatedCount := t.allocatedCount - 1,
               hidden := removeKey ptr t.hidden,
               parentCalls := t.parentCalls ++ [ParentCall.free (ptr - sizeofSizeT w)] } := by
  simp only [TrackerProxy.freeCall, if_neg h0, hf]

/-- The walk of `destroy` frees every entry at the head of the parent's table
and takes its size off the counters. -/
theorem arena_freeAll (w : Nat) (entries rest : List (Nat × Nat)) (t : TrackerProxy)
    (hnz : ∀ e, e ∈ entries → e.1 ≠ 0) (hh : t.hidden = entries ++ rest) :
    ∃ t1, ArenaProxy.freeAll w (entries.map Prod.fst) t = some t1 ∧ t1.hidden = rest ∧
      t1.allocatedBytes = t.allocatedBytes - totalSize entries ∧
      t1.allocatedCount = t.allocatedCount - entries.length := by
  induction entries generalizing t with
  | nil => exact ⟨t, rfl, by simpa using hh, by simp [totalSize], by simp⟩
  | cons e entries ih =>
    have he0 : e.1 ≠ 0 := hnz e (List.mem_cons_self _ _)
    have hf : findKey e.1 t.hidden = some e.2 := by simp [hh, findKey]
    have hfree := tracker_freeCall_found w t e.1 e.2 he0 hf
    have hrm : removeKey e.1 t.hidden = entries ++ rest := by simp [hh, removeKey]
    obtain ⟨t1, h1, h2, h3, h4⟩ := ih
      { allocatedBytes := t.allocatedBytes - e.2, allocatedCount := t.allocatedCount - 1,
        hidden := removeKey e.1 t.hidden,
        parentCalls := t.parentCalls ++ [ParentCall.free (e.1 - sizeofSizeT w)] }
      (fun x hx => hnz x (List.mem_cons_of_mem _ hx)) hrm
    refine ⟨t1, ?_, h2, ?_, ?_⟩
    · simp only [List.map_cons, ArenaProxy.freeAll, hfree, h1]
    · rw [h3, totalSize_cons]
      simp only
      omega
    · rw [h4, List.length_cons]
      simp only
      omega

theorem arena_init_tracked (w : Nat) (base : TrackerProxy) (controlSize cblk : Nat)
    (hc : cblk ≠ 0) :
    ∃ a0, loom_allocator_initializeArenaProxyAllocator w base controlSize cblk = some a0 ∧
      a0.nodes = [] ∧ ArenaProxy.Tracked base controlSize a0 := by
  refine ⟨ArenaProxy.mk (cblk + sizeofSizeT w) []
      (TrackerProxy.mk (base.allocatedBytes + controlSize) (base.allocatedCount + 1)
        ((cblk + sizeofSizeT w, controlSize) :: base.hidden)
        (base.parentCalls ++ [ParentCall.allocate (controlSize + sizeofSizeT w) cblk])),
    by simp only [loom_allocator_initializeArenaProxyAllocator,
      TrackerProxy.allocCall, if_neg hc], rfl, ?_⟩
  refine ⟨by simp only; omega, by simp, [], rfl, rfl, ?_, ?_⟩
  · simp [totalSize]
  · simp

theorem arena_step_tracked (w : Nat) (base : TrackerProxy) (controlSize : Nat)
    (a a1 : ArenaProxy) (op : AllocOp) (hinv : ArenaProxy.Tracked base controlSize a)
    (hstep : ArenaProxy.step w a op = some a1) : ArenaProxy.Tracked base controlSize a1 := by
  obtain ⟨hc, hnz, entries, hmap, hhid, hbytes, hcount⟩ := hinv
  cases op with
  | allocate size blk =>
    by_cases h0 : blk = 0
    · simp [ArenaProxy.step, ArenaProxy.allocCall, TrackerProxy.allocCall, h0] at hstep
    · simp only [ArenaProxy.step, ArenaProxy.allocCall, TrackerProxy.allocCall, if_neg h0,
        Option.map_some', Option.some.injEq] at hstep
      subst hstep
      refine ⟨hc, ?_, (blk + sizeofSizeT w, size + arenaHeaderSize w) :: entries, ?_, ?_, ?_, ?_⟩
      · intro h hh
        rcases List.mem_cons.mp hh with rfl | hh
        · omega
        · exact hnz h hh
      · simp [hmap]
      · simp [hhid]
      · simp only [totalSize_cons]
        omega
      · simp only [List.length_cons]
        omega
  | free ptr =>
    by_cases h0 : ptr = 0
    · simp only [ArenaProxy.step, ArenaProxy.freeCall, if_pos h0, Option.some.injEq] at hstep
      subst hstep
      exact ⟨hc, hnz, entries, hmap, hhid, hbytes, hcount⟩
    · simp only [ArenaProxy.step, ArenaProxy.freeCall, if_neg h0] at hstep
      by_cases hmem : ptr - arenaHeaderSize w ∈ a.nodes
      · have hne : ptr - arenaHeaderSize w ≠ 0 := hnz _ hmem
        have hmem1 : ptr - arenaHeaderSize w ∈ entries.map Prod.fst := by rw [hmap]; exact hmem
        obtain ⟨hfa, s, hfs⟩ := findKey_append_left (ptr - arenaHeaderSize w) entries
          ((a.control, controlSize) :: base.hidden) hmem1
        have hf : findKey (ptr - arenaHeaderSize w) a.parent.hidden = some s := by
          rw [hhid, hfa, hfs]
        obtain ⟨ht1, ht2⟩ := removeKey_totalSize _ _ _ hfs
        rw [if_pos hmem, tracker_freeCall_found w a.parent _ s hne hf] at hstep
        simp only [Option.some.injEq] at hstep
        subst hstep
        refine ⟨hc, ?_, removeKey (ptr - arenaHeaderSize w) entries, ?_, ?_, ?_, ?_⟩
        · intro h hh
          exact hnz h (List.mem_of_mem_erase hh)
        · rw [map_fst_removeKey, hmap]
        · simp only
          rw [hhid, removeKey_append_left _ _ _ hmem1]
        · simp only
          omega
        · simp only
          omega
      · simp [hmem] at hstep
  | reallocate ptr newSize blk => simp [ArenaProxy.step] at hstep

theorem arena_run_tracked (w : Nat) (base : TrackerProxy) (controlSize : Nat)
    (ops : List AllocOp) (a a1 : ArenaProxy) (hinv : ArenaProxy.Tracked base controlSize a)
    (hrun : ArenaProxy.run w ops a = some a1) : ArenaProxy.Tracked base controlSize a1 := by
  induction ops generalizing a with
  | nil =>
    simp only [ArenaProxy.run, Option.some.injEq] at hrun
    subst hrun
    exact hinv
  | cons op ops ih =>
    cases hs : ArenaProxy.step w a op with
    | none => simp [ArenaProxy.run, hs] at hrun
    | some a2 =>
      simp only [ArenaProxy.run, hs] at hrun
      exact ih a2 (arena_step_tracked w base controlSize a a2 op hinv hs) hrun

/-- Destroying an arena linked to its parent succeeds and puts the parent's
table and counters back to what they were before the arena was created. -/
theorem arena_destroy_tracked (w : Nat) (base : TrackerProxy) (controlSize : Nat)
    (a : ArenaProxy) (hinv : ArenaProxy.Tracked base controlSize a) :
    ∃ t, loom_allocator_destroy w a = some t ∧
      loom_allocator_getTrackerProxyStats t = loom_allocator_getTrackerProxyStats base ∧
      t.hidden = base.hidden := by
  obtain ⟨hc, hnz, entries, hmap, hhid, hbytes, hcount⟩ := hinv
  have hnz1 : ∀ e, e ∈ entries → e.1 ≠ 0 := by
    intro e he
    apply hnz
    rw [← hmap]
    exact List.mem_map_of_mem _ he
  obtain ⟨t1, h1, h2, h3, h4⟩ := arena_freeAll w entries _ a.parent hnz1 hhid
  have hf : findKey a.control t1.hidden = some controlSize := by simp [h2, findKey]
  refine ⟨TrackerProxy.mk (t1.allocatedBytes - controlSize) (t1.allocatedCount - 1)
      (removeKey a.control t1.hidden)
      (t1.parentCalls ++ [ParentCall.free (a.control - sizeofSizeT w)]), ?_, ?_, ?_⟩
  · simp only [loom_allocator_destroy, ← hmap, h1]
    exact tracker_freeCall_found w t1 a.control controlSize hc hf
  · simp only [loom_allocator_getTrackerProxyStats, Prod.mk.injEq]
    exact ⟨by omega, by omega⟩
  · simp [h2, removeKey]

/-- A run of allocations on an arena, the parent handing back non-null
blocks, succeeds: the list grows by one header each, and the parent tracks
each request with its header on top. -/
theorem arena_allocOps_run (w : Nat) (sizes blks : List Nat) (a : ArenaProxy)
    (hlen : sizes.length = blks.length) (hblks : ∀ b, b ∈ blks → b ≠ 0) :
    ∃ a1, ArenaProxy.run w (allocOps sizes blks) a = some a1 ∧
      a1.nodes.length = a.nodes.length + sizes.length ∧
      a1.parent.allocatedBytes
        = a.parent.allocatedBytes + sizes.sum + sizes.length * arenaHeaderSize w ∧
      a1.parent.allocatedCount = a.parent.allocatedCount + sizes.length := by
  induction sizes generalizing blks a with
  | nil => exact ⟨a, by simp [allocOps, ArenaProxy.run], by simp, by simp, by simp⟩
  | cons s sizes ih =>
    cases blks with
    | nil => simp at hlen
    | cons b blks =>
      have hb : b ≠ 0 := hblks b (List.mem_cons_self _ _)
      have hlen1 : sizes.length = blks.length := by simpa using hlen
      obtain ⟨a1, h1, h2, h3, h4⟩ := ih blks
        (ArenaProxy.mk a.control ((b + sizeofSizeT w) :: a.nodes)
          (TrackerProxy.mk (a.parent.allocatedBytes + (s + arenaHeaderSize w))
            (a.parent.allocatedCount + 1)
            ((b + sizeofSizeT w, s + arenaHeaderSize w) :: a.parent.hidden)
            (a.parent.parentCalls
              ++ [ParentCall.allocate (s + arenaHeaderSize w + sizeofSizeT w) b])))
        hlen1 (fun x hx => hblks x (List.mem_cons_of_mem _ hx))
      refine ⟨a1, ?_, ?_, ?_, ?_⟩
      · simp only [allocOps, ArenaProxy.run, ArenaProxy.step, ArenaProxy.allocCall,
          TrackerProxy.allocCall, if_neg hb, Option.map_some']
        exact h1
      · rw [h2]
        simp only [List.length_cons]
        omega
      · rw [h3]
        simp only [List.length_cons, List.sum_cons]
        have e : (sizes.length + 1) * arenaHeaderSize w
            = sizes.length * arenaHeaderSize w + arenaHeaderSize w := by ring
        omega
      · rw [h4]
        simp only [List.length_cons]
        omega

/-- C15: arena bulk free. For every number `N` of blocks (the sizes `sizes`,
the parent handing back the non-null blocks `blks`), creating an arena on a
tracking proxy `base`, allocating the `N` blocks through it and calling
destroy without any individual free succeeds: the parent tracked each block
with its two-pointer header and the control structure, and after destroy the
parent's `(bytes, count)` and its table of outstanding allocations are those
of `base`. The same holds after any sequence of allocate and free calls on
the arena: destroy succeeds, so no block freed individually is freed again,
and nothing stays outstanding at the parent. -/
theorem C15_arena_bulk_free (w : Nat) (base : TrackerProxy) (controlSize cblk : Nat)
    (sizes blks : List Nat) (hc : cblk ≠ 0) (hlen : sizes.length = blks.length)
    (hblks : ∀ b, b ∈ blks → b ≠ 0) :
    ∃ a0 a : ArenaProxy, ∃ t : TrackerProxy,
      loom_allocator_initializeArenaProxyAllocator w base controlSize cblk = some a0 ∧
      ArenaProxy.run w (allocOps sizes blks) a0 = some a ∧
      a.nodes.length = sizes.length ∧
      a.parent.allocatedBytes
        = base.allocatedBytes + controlSize + sizes.sum + sizes.length * arenaHeaderSize w ∧
      a.parent.allocatedCount = base.allocatedCount + 1 + sizes.length ∧
      loom_allocator_destroy w a = some t ∧
      loom_allocator_getTrackerProxyStats t = loom_allocator_getTrackerProxyStats base ∧
      t.hidden = base.hidden ∧
      (∀ ops a1, ArenaProxy.run w ops a0 = some a1 →
        ∃ t1, loom_allocator_destroy w a1 = some t1 ∧
          loom_allocator_getTrackerProxyStats t1 = loom_allocator_getTrackerProxyStats base ∧
          t1.hidden = base.hidden) := by
  obtain ⟨a0, hinit, hnodes, hinv⟩ := arena_init_tracked w base controlSize cblk hc
  obtain ⟨a, hrun, hn, hbytes, hcount⟩ := arena_allocOps_run w sizes blks a0 hlen hblks
  obtain ⟨t, hd, hstats, hhid⟩ := arena_destroy_tracked w base controlSize a
    (arena_run_tracked w base controlSize _ a0 a hinv hrun)
  have hb0 : a0.parent.allocatedBytes = base.allocatedBytes + controlSize := by
    simp only [loom_allocator_initializeArenaProxyAllocator, TrackerProxy.allocCall,
      if_neg hc, Option.some.injEq] at hinit
    subst hinit
    rfl
  have hc0 : a0.parent.allocatedCount = base.allocatedCount + 1 := by
    simp only [loom_allocator_initializeArenaProxyAllocator, TrackerProxy.allocCall,
      if_neg hc, Option.some.injEq] at hinit
    subst hinit
    rfl
  refine ⟨a0, a, t, hinit, hrun, ?_, ?_, ?_, hd, hstats, hhid, ?_⟩
  · rw [hn, hnodes]
    simp
  · rw [hbytes, hb0]
  · rw [hcount, hc0]
  · intro ops a1 hrun1
    exact arena_destroy_tracked w base controlSize a1
      (arena_run_tracked w base controlSize ops a0 a1 hinv hrun1)

/-- C15 at a concrete input: an arena on a tracking proxy holding 100 bytes in
one allocation; three blocks of 5, 6 and 7 bytes are allocated and the arena
is destroyed. -/
theorem C15_arena_bulk_free_witness :
    ((20000 : Nat) ≠ 0 ∧ [5, 6, 7].length = [30000, 40000, 50000].length ∧
      (∀ b, b ∈ [30000, 40000, 50000] → b ≠ 0)) ∧
    ∃ a0 a : ArenaProxy, ∃ t : TrackerProxy,
      loom_allocator_initializeArenaProxyAllocator 64 sampleTracker 48 20000 = some a0 ∧
      ArenaProxy.run 64 (allocOps [5, 6, 7] [30000, 40000, 50000]) a0 = some a ∧
      a.nodes.length = 3 ∧
      loom_allocator_destroy 64 a = some t ∧
      loom_allocator_getTrackerProxyStats t = (100, 1) :=
  ⟨⟨by decide, by decide, by decide⟩,
   match C15_arena_bulk_free 64 sampleTracker 48 20000 [5, 6, 7] [30000, 40000, 50000]
      (by decide) (by decide) (by decide) with
   | ⟨a0, a, t, h1, h2, h3, _, _, h6, h7, _, _⟩ => ⟨a0, a, t, h1, h2, h3, h6, h7⟩⟩

/-- C16: for the tracking proxy, the fixed pool and the arena proxy, and every
size the allocator serves, allocating and immediately freeing the pointer
returned succeeds and leaves the observable state as it was: the tracker's
`(bytes, count)` and table; the pool's free list, so its free-slot count (for
a pool with a non-null block, items of non-zero size and free slots below
`itemCount`); the arena's live list and its parent's `(bytes, count)` and
table. -/
theorem C16_allocate_free_restores (w : Nat) :
    (∀ (t : TrackerProxy) (size blk ptr : Nat) (t1 : TrackerProxy),
      TrackerProxy.allocCall w t size blk = some (ptr, t1) →
      ∃ t2, TrackerProxy.freeCall w t1 ptr = some t2 ∧
        loom_allocator_getTrackerProxyStats t2 = loom_allocator_getTrackerProxyStats t ∧
        t2.hidden = t.hidden) ∧
    (∀ (p : FixedPool) (size ptr : Nat) (p1 : FixedPool),
      p.block ≠ 0 → 0 < p.itemSize → (∀ s, s ∈ p.freeList → s < p.itemCount) →
      FixedPool.allocCall p size = some (ptr, p1) →
      ∃ p2, FixedPool.freeCall p1 ptr = some p2 ∧ p2 = p ∧
        p2.freeList.length = p.freeList.length) ∧
    (∀ (a : ArenaProxy) (size blk ptr : Nat) (a1 : ArenaProxy),
      ArenaProxy.allocCall w a size blk = some (ptr, a1) →
      ∃ a2, ArenaProxy.freeCall w a1 ptr = some a2 ∧ a2.nodes = a.nodes ∧
        a2.control = a.control ∧
        loom_allocator_getTrackerProxyStats a2.parent
          = loom_allocator_getTrackerProxyStats a.parent ∧
        a2.parent.hidden = a.parent.hidden) := by
  refine ⟨?_, ?_, ?_⟩
  · intro t size blk ptr t1 h
    by_cases h0 : blk = 0
    · simp [TrackerProxy.allocCall, h0] at h
    · simp only [TrackerProxy.allocCall, if_neg h0, Option.some.injEq, Prod.mk.injEq] at h
      obtain ⟨hp, ht⟩ := h
      subst hp ht
      have hne : blk + sizeofSizeT w ≠ 0 := by omega
      refine ⟨_, tracker_freeCall_found w _ _ size hne (by simp [findKey]), ?_, ?_⟩
      · simp [loom_allocator_getTrackerProxyStats]
      · simp [removeKey]
  · intro p size ptr p1 hblock hitem hslots h
    obtain ⟨block, itemSize, itemCount, freeList⟩ := p
    simp only at hblock hitem hslots
    by_cases hs : size ≤ itemSize
    · cases freeList with
      | nil =>
        simp only [FixedPool.allocCall, if_pos hs, Option.some.injEq, Prod.mk.injEq] at h
        obtain ⟨hp, hp1⟩ := h
        subst hp hp1
        exact ⟨_, by simp [FixedPool.freeCall], rfl, rfl⟩
      | cons slot rest =>
        simp only [FixedPool.allocCall, if_pos hs, Option.some.injEq, Prod.mk.injEq] at h
        obtain ⟨hp, hp1⟩ := h
        subst hp hp1
        have hslot : slot < itemCount := hslots slot (by simp)
        have hmul : (slot + 1) * itemSize ≤ itemCount * itemSize :=
          Nat.mul_le_mul_right _ hslot
        have e1 : (slot + 1) * itemSize = slot * itemSize + itemSize := by ring
        have e2 : itemSize * itemCount = itemCount * itemSize := Nat.mul_comm _ _
        have hne : block + slot * itemSize ≠ 0 := by omega
        have hin : block ≤ block + slot * itemSize ∧
            block + slot * itemSize < block + itemSize * itemCount :=
          ⟨by omega, by omega⟩
        have hdiv : (block + slot * itemSize - block) / itemSize = slot := by
          rw [Nat.add_sub_cancel_left, Nat.mul_div_cancel _ hitem]
        refine ⟨_, ?_, rfl, rfl⟩
        simp only [FixedPool.freeCall, FixedPool.slotAddr, if_neg hne, hin, and_self, if_true,
          hdiv]
    · simp [FixedPool.allocCall, hs] at h
  · intro a size blk ptr a1 h
    by_cases h0 : blk = 0
    · simp [ArenaProxy.allocCall, TrackerProxy.allocCall, h0] at h
    · simp only [ArenaProxy.allocCall, TrackerProxy.allocCall, if_neg h0, Option.some.injEq,
        Prod.mk.injEq] at h
      obtain ⟨hp, ha⟩ := h
      subst hp ha
      have hne : blk + sizeofSizeT w + arenaHeaderSize w ≠ 0 := by omega
      have hne1 : blk + sizeofSizeT w ≠ 0 := by omega
      refine ⟨ArenaProxy.mk a.control a.nodes
        (TrackerProxy.mk a.parent.allocatedBytes a.parent.allocatedCount a.parent.hidden
          (a.parent.parentCalls
            ++ [ParentCall.allocate (size + arenaHeaderSize w + sizeofSizeT w) blk]
            ++ [ParentCall.free (blk + sizeofSizeT w - sizeofSizeT w)])), ?_, rfl, rfl, rfl, rfl⟩
      simp only [ArenaProxy.freeCall, if_neg hne, Nat.add_sub_cancel, List.mem_cons, true_or,
        if_true]
      rw [tracker_freeCall_found w _ _ (size + arenaHeaderSize w) hne1 (by simp [findKey])]
      simp [removeKey]

/-- C16 at a concrete input: ten bytes allocated from and freed to the sample
tracking proxy, an item taken from and given back to the sample pool. -/
theorem C16_allocate_free_restores_witness :
    (∃ t2, TrackerProxy.freeCall 64
        { allocatedBytes := 110, allocatedCount := 2, hidden := [(4104, 10), (1032, 100)],
          parentCalls := [ParentCall.allocate 108 1024, ParentCall.allocate 18 4096] } 4104
        = some t2 ∧
      loom_allocator_getTrackerProxyStats t2 = loom_allocator_getTrackerProxyStats sampleTracker ∧
      t2.hidden = sampleTracker.hidden) ∧
    (∃ p2, FixedPool.freeCall { samplePool with freeList := [1, 2, 3] } 4096 = some p2 ∧
      p2 = samplePool ∧ p2.freeList.length = samplePool.freeList.length) :=
  ⟨(C16_allocate_free_restores 64).1 sampleTracker 10 4096 4104 _ (by decide),
   (C16_allocate_free_restores 64).2.1 samplePool 5 4096 _ (by decide) (by decide)
     (by decide) (by decide)⟩

theorem routeAllocator_null (globalHeap : Nat) :
    routeAllocator globalHeap 0 = routeAllocator globalHeap globalHeap := by
  by_cases h : globalHeap = 0
  · simp [routeAllocator, h]
  · simp [routeAllocator, h]

/-- C17: for every sequence of allocate, free and reallocate calls, the run
made with a null allocator handle gives the same pointers and the same state
of every allocator as the run made with the handle of the global heap (the
one `loom_allocator_getGlobalHeap()` returns): each entry point routes a null
handle to the global heap. -/
theorem C17_null_handle_is_global_heap (globalHeap : Nat) (ops : List AllocOp)
    (rt : Nat → Heap) :
    runEntryPoints globalHeap 0 ops rt = runEntryPoints globalHeap globalHeap ops rt ∧
    (∀ size blk, lmAlloc_inner globalHeap rt 0 size blk
      = lmAlloc_inner globalHeap rt globalHeap size blk) ∧
    (∀ ptr, lmFree_inner globalHeap rt 0 ptr = lmFree_inner globalHeap rt globalHeap ptr) ∧
    (∀ ptr size blk, lmRealloc_inner globalHeap rt 0 ptr size blk
      = lmRealloc_inner globalHeap rt globalHeap ptr size blk) := by
  have halloc : ∀ (rt : Nat → Heap) size blk, lmAlloc_inner globalHeap rt 0 size blk
      = lmAlloc_inner globalHeap rt globalHeap size blk := by
    intro rt size blk
    simp only [lmAlloc_inner, routeAllocator_null]
  have hfree : ∀ (rt : Nat → Heap) ptr, lmFree_inner globalHeap rt 0 ptr
      = lmFree_inner globalHeap rt globalHeap ptr := by
    intro rt ptr
    simp only [lmFree_inner, routeAllocator_null]
  have hrealloc : ∀ (rt : Nat → Heap) ptr size blk, lmRealloc_inner globalHeap rt 0 ptr size blk
      = lmRealloc_inner globalHeap rt globalHeap ptr size blk := by
    intro rt ptr size blk
    simp only [lmRealloc_inner, routeAllocator_null]
  refine ⟨?_, halloc rt, hfree rt, hrealloc rt⟩
  induction ops generalizing rt with
  | nil => rfl
  | cons op ops ih =>
    cases op with
    | allocate size blk =>
      simp only [runEntryPoints, halloc]
      cases lmAlloc_inner globalHeap rt globalHeap size blk with
      | none => rfl
      | some r => simp only [ih]
    | free ptr =>
      simp only [runEntryPoints, hfree]
      cases lmFree_inner globalHeap rt globalHeap ptr with
      | none => rfl
      | some r => simp only [ih]
    | reallocate ptr newSize blk =>
      simp only [runEntryPoints, hrealloc]
      cases lmRealloc_inner globalHeap rt globalHeap ptr newSize blk with
      | none => rfl
      | some r => simp only [ih]

/-! ## Claims about the handle and the safe macros -/

theorem filter_allocatorCalls_constructs (l : List Nat) :
    (l.map Event.construct).filter Event.isAllocatorCall = [] := by
  induction l with
  | nil => rfl
  | cons x l _ => simp [List.filter, Event.isAllocatorCall]

theorem filter_allocatorCalls_destructs (ds : List Event)
    (h : ∀ e, e ∈ ds → ∃ addr, e = Event.destruct addr) :
    ds.filter Event.isAllocatorCall = [] := by
  induction ds with
  | nil => rfl
  | cons e ds ih =>
    obtain ⟨addr, rfl⟩ := h _ (List.mem_cons_self _ _)
    have := ih (fun x hx => h x (List.mem_cons_of_mem _ hx))
    simpa [List.filter, Event.isAllocatorCall] using this

/-- The calls `loom_deleteArray` adds on a non-null array `b + 16`: destructor
calls, then `lmFree(allocator, b)`. -/
theorem deleteArray_calls (w : Nat) (T : ElemType) (a b : Nat) (σ : World)
    (hfit : b + LOOM_ALLOCATOR_METADATA_SIZE < 2 ^ w) :
    ∃ ds : List Event, (∀ e, e ∈ ds → ∃ addr, e = Event.destruct addr) ∧
      (loom_deleteArray w T a (b + LOOM_ALLOCATOR_METADATA_SIZE) σ).trace
        = σ.trace ++ ds ++ [Event.lmFree a b] := by
  have hp : b + LOOM_ALLOCATOR_METADATA_SIZE ≠ 0 := by
    unfold LOOM_ALLOCATOR_METADATA_SIZE
    omega
  have hsub : sizeSub w (b + LOOM_ALLOCATOR_METADATA_SIZE) LOOM_ALLOCATOR_METADATA_SIZE = b :=
    sizeSub_add_cancel hfit
  simp only [loom_deleteArray, if_neg hp, hsub, lmFree]
  cases hT : ArrayAlloc.fundamental T.ty with
  | true => exact ⟨[], by simp, by simp⟩
  | false =>
    obtain ⟨ds, hds, _, htr⟩ :=
      deleteArray_loop_only_destructs w T (b + LOOM_ALLOCATOR_METADATA_SIZE) (loadUInt σ.mem b) σ
    exact ⟨ds, hds, by simp [htr]⟩

/-- The calls `loom_newArray` adds on a non-null block: the allocation call
with the handle it was given, then constructor calls. -/
theorem newArray_calls (w : Nat) (T : ElemType) (a n b : Nat) (σ : World) (hb : b ≠ 0) :
    ∃ cs : List Nat,
      (loom_newArray w T a n b σ).world.trace
        = σ.trace
          ++ [if ArrayAlloc.fundamental T.ty
              then Event.lmCalloc a 1
                (sizeAdd w LOOM_ALLOCATOR_METADATA_SIZE (sizeMul w n T.sizeOf))
              else Event.lmAlloc a
                (sizeAdd w LOOM_ALLOCATOR_METADATA_SIZE (sizeMul w n T.sizeOf))]
          ++ cs.map Event.construct := by
  cases hT : ArrayAlloc.fundamental T.ty with
  | true =>
    refine ⟨[], ?_⟩
    rw [newArray_fundamental w T a n b σ hT hb]
    simp [Outcome.world]
  | false =>
    refine ⟨(List.range n).map
      (fun i => elemAddr w T (sizeAdd w b LOOM_ALLOCATOR_METADATA_SIZE) i), ?_⟩
    rw [newArray_class w T a n b σ hT hb]
    simp [Outcome.world, newArray_loop_trace, Function.comp]

/-- C21: `loom_newArray` and `loom_deleteArray` forward the allocator handle
they are given, a null handle as null: for every element type, count and
handle `a`, on a non-null block `b` (header inside the address space), the
calls to allocator entry points that a `loom_newArray` followed by
`loom_deleteArray` on the pointer returned adds to the trace are exactly one
allocation call (`lmCalloc(a, 1, size)` for a fundamental type, `lmAlloc(a,
size)` otherwise) and one `lmFree(a, b)`, both with the handle `a`. -/
theorem C21_handle_forwarded (w : Nat) (T : ElemType) (a n b : Nat) (σ : World)
    (hb : 0 < b) (hfit : b + LOOM_ALLOCATOR_METADATA_SIZE < 2 ^ w) :
    (((loom_deleteArray w T a (b + LOOM_ALLOCATOR_METADATA_SIZE)
        (loom_newArray w T a n b σ).world).trace.drop σ.trace.length).filter
          Event.isAllocatorCall
      = [if ArrayAlloc.fundamental T.ty
          then Event.lmCalloc a 1 (sizeAdd w LOOM_ALLOCATOR_METADATA_SIZE (sizeMul w n T.sizeOf))
          else Event.lmAlloc a (sizeAdd w LOOM_ALLOCATOR_METADATA_SIZE (sizeMul w n T.sizeOf)),
         Event.lmFree a b]) ∧
    ((((loom_deleteArray w T a (b + LOOM_ALLOCATOR_METADATA_SIZE)
        (loom_newArray w T a n b σ).world).trace.drop σ.trace.length).filter
          Event.isAllocatorCall).map Event.allocator = [some a, some a]) := by
  obtain ⟨cs, hnew⟩ := newArray_calls w T a n b σ (by omega)
  obtain ⟨ds, hds, hdel⟩ := deleteArray_calls w T a b (loom_newArray w T a n b σ).world hfit
  have hfilter : ((loom_deleteArray w T a (b + LOOM_ALLOCATOR_METADATA_SIZE)
        (loom_newArray w T a n b σ).world).trace.drop σ.trace.length).filter
          Event.isAllocatorCall
      = [if ArrayAlloc.fundamental T.ty
          then Event.lmCalloc a 1 (sizeAdd w LOOM_ALLOCATOR_METADATA_SIZE (sizeMul w n T.sizeOf))
          else Event.lmAlloc a (sizeAdd w LOOM_ALLOCATOR_METADATA_SIZE (sizeMul w n T.sizeOf)),
         Event.lmFree a b] := by
    rw [hdel, hnew]
    simp only [List.append_assoc, List.drop_left, List.filter_append,
      filter_allocatorCalls_constructs, filter_allocatorCalls_destructs ds hds]
    cases ArrayAlloc.fundamental T.ty <;> simp [List.filter, Event.isAllocatorCall]
  refine ⟨hfilter, ?_⟩
  rw [hfilter]
  cases ArrayAlloc.fundamental T.ty <;> simp [Event.allocator]

/-- C21 at a concrete input: three `sampleClass` objects with the null
handle. -/
theorem C21_handle_forwarded_witness :
    (0 < 4096 ∧ 4096 + LOOM_ALLOCATOR_METADATA_SIZE < 2 ^ 64) ∧
    ((((loom_deleteArray 64 sampleClass 0 (4096 + LOOM_ALLOCATOR_METADATA_SIZE)
        (loom_newArray 64 sampleClass 0 3 4096 dirtyWorld).world).trace.drop
          dirtyWorld.trace.length).filter Event.isAllocatorCall
      = [if ArrayAlloc.fundamental sampleClass.ty
          then Event.lmCalloc 0 1
            (sizeAdd 64 LOOM_ALLOCATOR_METADATA_SIZE (sizeMul 64 3 sampleClass.sizeOf))
          else Event.lmAlloc 0
            (sizeAdd 64 LOOM_ALLOCATOR_METADATA_SIZE (sizeMul 64 3 sampleClass.sizeOf)),
         Event.lmFree 0 4096]) ∧
    ((((loom_deleteArray 64 sampleClass 0 (4096 + LOOM_ALLOCATOR_METADATA_SIZE)
        (loom_newArray 64 sampleClass 0 3 4096 dirtyWorld).world).trace.drop
          dirtyWorld.trace.length).filter Event.isAllocatorCall).map Event.allocator
      = [some 0, some 0])) :=
  ⟨⟨by decide, by decide⟩,
   C21_handle_forwarded 64 sampleClass 0 3 4096 dirtyWorld (by decide) (by decide)⟩

/-- C22: `lmSafeFree` and `lmSafeDelete` on a pointer variable. A non-null
variable is released exactly once (`lmSafeDelete` destructs the object first)
and set to null; a null variable is left alone and nothing is called; so the
macro applied a second time to the same variable changes nothing, and the two
applications together make at most one `lmFree` call. -/
theorem C22_safe_macros_idempotent (T : ElemType) (a obj : Nat) (σ : World) :
    (lmSafeFree a obj σ).1 = 0 ∧
    (lmSafeDelete T a obj σ).1 = 0 ∧
    (obj ≠ 0 → (lmSafeFree a obj σ).2.trace = σ.trace ++ [Event.lmFree a obj] ∧
      (lmSafeDelete T a obj σ).2.trace
        = σ.trace ++ [Event.destruct obj, Event.lmFree a obj]) ∧
    lmSafeFree a 0 σ = (0, σ) ∧
    lmSafeDelete T a 0 σ = (0, σ) ∧
    lmSafeFree a (lmSafeFree a obj σ).1 (lmSafeFree a obj σ).2 = lmSafeFree a obj σ ∧
    lmSafeDelete T a (lmSafeDelete T a obj σ).1 (lmSafeDelete T a obj σ).2
      = lmSafeDelete T a obj σ ∧
    (((lmSafeFree a (lmSafeFree a obj σ).1 (lmSafeFree a obj σ).2).2.trace.drop
        σ.trace.length).filter Event.isAllocatorCall).length ≤ 1 ∧
    (((lmSafeDelete T a (lmSafeDelete T a obj σ).1 (lmSafeDelete T a obj σ).2).2.trace.drop
        σ.trace.length).filter Event.isAllocatorCall).length ≤ 1 := by
  have hf0 : lmSafeFree a 0 σ = (0, σ) := by simp [lmSafeFree]
  have hd0 : lmSafeDelete T a 0 σ = (0, σ) := by simp [lmSafeDelete]
  by_cases h : obj = 0
  · subst h
    simp [hf0, hd0, lmSafeFree, lmSafeDelete]
  · have hf : lmSafeFree a obj σ = (0, lmFree a obj σ) := by simp [lmSafeFree, h]
    have hd : lmSafeDelete T a obj σ
        = (0, lmFree a obj (loom_destructInPlace T obj σ).2) := by
      simp [lmSafeDelete, loom_destructInPlace, h]
    have hft : (lmFree a obj σ).trace = σ.trace ++ [Event.lmFree a obj] := rfl
    have hdt : (lmFree a obj (loom_destructInPlace T obj σ).2).trace
        = σ.trace ++ [Event.destruct obj, Event.lmFree a obj] := by
      simp [lmFree, loom_destructInPlace, h]
    refine ⟨by rw [hf], by rw [hd], fun _ => ⟨by rw [hf, hft], by rw [hd, hdt]⟩, hf0, hd0,
      ?_, ?_, ?_, ?_⟩
    · rw [hf]
      simp [lmSafeFree]
    · rw [hd]
      simp [lmSafeDelete]
    · rw [hf]
      simp [lmSafeFree, hft, List.filter, Event.isAllocatorCall]
    · rw [hd]
      simp [lmSafeDelete, hdt, List.filter, Event.isAllocatorCall]

/-- C22 at a concrete input: the variable holding 4112 is freed once, then
the macro is applied again. -/
theorem C22_safe_macros_idempotent_witness :
    (lmSafeFree 7 4112 dirtyWorld).1 = 0 ∧
    (lmSafeFree 7 4112 dirtyWorld).2.trace = [Event.lmFree 7 4112] ∧
    (lmSafeFree 7 (lmSafeFree 7 4112 dirtyWorld).1 (lmSafeFree 7 4112 dirtyWorld).2).2.trace
      = [Event.lmFree 7 4112] ∧
    (lmSafeDelete sampleClass 7 (lmSafeDelete sampleClass 7 4112 dirtyWorld).1
        (lmSafeDelete sampleClass 7 4112 dirtyWorld).2).2.trace
      = [Event.destruct 4112, Event.lmFree 7 4112] :=
  have h := C22_safe_macros_idempotent sampleClass 7 4112 dirtyWorld
  ⟨h.1, (h.2.2.1 (by decide)).1, by rw [h.2.2.2.2.2.1]; exact (h.2.2.1 (by decide)).1,
    by rw [h.2.2.2.2.2.2.1]; exact (h.2.2.1 (by decide)).2⟩

/-! ## Claims about reads from a byte array -/

theorem readValue_isSome (w : Nat) (bigEndian : Bool) (fill : Nat → Nat) (k : Nat)
    (a : utByteArray) :
    (utByteArray.readValue w bigEndian fill k a).isSome
      = decide (a._position ≤ sizeSub (wideBits w) a._data.length k) := by
  by_cases h : a._position ≤ sizeSub (wideBits w) a._data.length k
  · simp [utByteArray.readValue, lmAssert, h]
  · simp [utByteArray.readValue, lmAssert, h]

theorem sizeSub_of_le {m L k : Nat} (hk : k ≤ L) (hL : L < 2 ^ m) : sizeSub m L k = L - k := by
  have h := @sizeSub_add_cancel m (L - k) k (by omega)
  rwa [Nat.sub_add_cancel hk] at h

/-- The unsigned subtraction `_data.size() - sizeof(T)` when the array is
smaller than the scalar: it wraps around. -/
theorem sizeSub_of_lt {m L k : Nat} (hL : L < k) (hk : k < 2 ^ m) :
    sizeSub m L k = L + 2 ^ m - k := by
  unfold sizeSub
  rw [Nat.mod_eq_of_lt hk]
  have e : L + (2 ^ m - k) = L + 2 ^ m - k := by omega
  rw [e]
  exact Nat.mod_eq_of_lt (by omega)

/-- C23: the assertion of `readValue<T>` against the claim. On an array at
least as large as the scalar the assertion passes exactly when `position +
sizeof(T) <= size`. On an array smaller than the scalar, the empty array
included, `_data.size() - sizeof(T)` wraps around and the assertion passes for
every position up to `size + 2 ^ m - sizeof(T)`, `m` being the width of the
subtraction: `readValue<int>` on an empty array at position 0 passes, reads
four bytes that are not in the array and moves the position to 4. -/
theorem C23_readValue_assertion (w : Nat) (bigEndian : Bool) (fill : Nat → Nat) (k p : Nat)
    (d : List Nat) :
    (k ≤ d.length → d.length < 2 ^ wideBits w →
      ((utByteArray.readValue w bigEndian fill k { _data := d, _position := p }).isSome = true
        ↔ p + k ≤ d.length)) ∧
    (d.length < k → k < 2 ^ wideBits w →
      ((utByteArray.readValue w bigEndian fill k { _data := d, _position := p }).isSome = true
        ↔ p + k ≤ d.length + 2 ^ wideBits w)) ∧
    utByteArray.readValue 64 false (fun _ => 0xEE) 4 { _data := [], _position := 0 }
      = some (0xEEEEEEEE, { _data := [], _position := 4 }) ∧
    (utByteArray.readValue 32 false (fun _ => 0xEE) 4 { _data := [1, 2], _position := 0 }).isSome
      = true := by
  refine ⟨?_, ?_, by decide, by decide⟩
  · intro hk hL
    rw [readValue_isSome, sizeSub_of_le hk hL]
    simp only [decide_eq_true_eq]
    omega
  · intro hL hk
    rw [readValue_isSome, sizeSub_of_lt hL hk]
    simp only [decide_eq_true_eq]
    omega

theorem toInt32_of_nonneg_lt (x : Int) (h0 : 0 ≤ x) (h1 : x < 2147483648) : toInt32 x = x := by
  unfold toInt32
  omega

theorem intToUInt_of_nonneg_lt (x : Int) (h0 : 0 ≤ x) (h1 : x < 4294967296) :
    intToUInt x = x.toNat := by
  unfold intToUInt
  rw [Int.emod_eq_of_lt h0 h1]

theorem intToSizeT_of_nonneg_lt (w : Nat) (x : Int) (h0 : 0 ≤ x) (h1 : x < 4294967296)
    (hw : 32 ≤ w) : intToSizeT w x = x.toNat := by
  unfold intToSizeT
  have h2 : (4294967296 : Int) ≤ (2 : Int) ^ w := by
    have : (2 : Int) ^ 32 ≤ (2 : Int) ^ w := pow_le_pow_right₀ (by norm_num) hw
    simpa using this
  rw [Int.emod_eq_of_lt h0 (by omega)]

/-- What `readString` does after the header has been read as `v`, for a
header that is not zero. -/
theorem readString_after_header (w : Nat) (bigEndian : Bool) (fill : Nat → Nat)
    (a a1 : utByteArray) (v : Nat)
    (hread : utByteArray.readValue w bigEndian fill 4 a = some (v, a1))
    (hv : toInt32 (v : Int) ≠ 0) :
    utByteArray.readString w bigEndian fill a
      = lmAssert (decide ((a1._position + intToUInt (toInt32 (v : Int))) % UINT_RANGE
            ≤ a1._data.length))
          (some (memcpyUnaligned (List.replicate (intToSizeT w (toInt32 (v : Int))) 0) 0
              (fun i => byteAt fill a1._data (a1._position + i))
              (intToSizeT w (toInt32 (v : Int))),
            { a1 with
              _position := (a1._position + intToUInt (toInt32 (v : Int))) % UINT_RANGE })) := by
  simp only [utByteArray.readString, hread, if_neg hv]

/-- C24: the assertion of `readString` against the claim. A header that is a
positive `int` (with no wrap of the position) passes the assertion exactly when
`position + length <= size`, and then `length` bytes are copied and the
position advances by `length` past the header. A negative header does not
always fail: `_position + length` is computed as an `unsigned int`, so for the
bytes `FF FF FF FF 41 42` the header `-1` gives `4 + 0xFFFFFFFF = 3 <= 6`, the
assertion passes, `(size_t) -1` bytes are copied from an array of six and the
position becomes 3. -/
theorem C24_readString_assertion :
    toInt32 ((4294967295 : Nat) : Int) = -1 ∧
    (∃ s : List Nat,
      utByteArray.readString 64 false (fun _ => 0)
          { _data := [255, 255, 255, 255, 65, 66], _position := 0 }
        = some (s, { _data := [255, 255, 255, 255, 65, 66], _position := 3 }) ∧
      s.length = 2 ^ 64 - 1) ∧
    (∀ (w : Nat) (bigEndian : Bool) (fill : Nat → Nat) (a a1 : utByteArray) (v : Nat),
      utByteArray.readValue w bigEndian fill 4 a = some (v, a1) →
      (v = 0 → utByteArray.readString w bigEndian fill a = some ([], a1)) ∧
      (0 < v → v < 2 ^ 31 → a1._position + v < UINT_RANGE → 32 ≤ w →
        ((utByteArray.readString w bigEndian fill a).isSome = true
          ↔ a1._position + v ≤ a1._data.length) ∧
        (∀ s a2, utByteArray.readString w bigEndian fill a = some (s, a2) →
          s.length = v ∧ a2._position = a1._position + v)) ∧
      (2 ^ 31 ≤ v → v < 2 ^ 32 →
        ((utByteArray.readString w bigEndian fill a).isSome = true
          ↔ (a1._position + v) % UINT_RANGE ≤ a1._data.length))) := by
  have hneg : toInt32 ((4294967295 : Nat) : Int) = -1 := by decide
  refine ⟨hneg, ?_, ?_⟩
  · have hread : utByteArray.readValue 64 false (fun _ => 0) 4
        { _data := [255, 255, 255, 255, 65, 66], _position := 0 }
        = some (4294967295, { _data := [255, 255, 255, 255, 65, 66], _position := 4 }) := by
      decide
    have hpos : (4 + intToUInt (-1)) % UINT_RANGE = 3 := by decide
    have hnum : intToSizeT 64 (-1) = 2 ^ 64 - 1 := by decide
    refine ⟨memcpyUnaligned (List.replicate (intToSizeT 64 (-1)) 0) 0
      (fun i => byteAt (fun _ => 0) [255, 255, 255, 255, 65, 66] (4 + i))
      (intToSizeT 64 (-1)), ?_, ?_⟩
    · rw [readString_after_header 64 false _ _ _ _ hread (by rw [hneg]; decide), hneg]
      simp only [lmAssert, hpos]
      rw [if_pos (by decide)]
    · rw [memcpyUnaligned_length, List.length_replicate, hnum]
  · intro w bigEndian fill a a1 v hread
    refine ⟨?_, ?_, ?_⟩
    · intro h0
      subst h0
      simp [utByteArray.readString, hread, toInt32]
    · intro h0 h1 h2 hw
      have hv31 : (v : Int) < 2147483648 := by
        have : v < 2147483648 := by simpa using h1
        omega
      have hi : toInt32 (v : Int) = (v : Int) := toInt32_of_nonneg_lt _ (by omega) hv31
      have hne : toInt32 (v : Int) ≠ 0 := by rw [hi]; omega
      have hu : intToUInt (v : Int) = v := by
        rw [intToUInt_of_nonneg_lt _ (by omega) (by omega)]
        simp
      have hs : intToSizeT w (v : Int) = v := by
        rw [intToSizeT_of_nonneg_lt w _ (by omega) (by omega) hw]
        simp
      have hmod : (a1._position + v) % UINT_RANGE = a1._position + v := Nat.mod_eq_of_lt h2
      rw [readString_after_header w bigEndian fill a a1 v hread hne, hi, hu, hs, hmod]
      by_cases hle : a1._position + v ≤ a1._data.length
      · simp only [lmAssert, hle, decide_True, if_true, Option.isSome_some, true_iff]
        refine ⟨trivial, ?_⟩
        intro s a2 h
        simp only [Option.some.injEq, Prod.mk.injEq] at h
        obtain ⟨hs1, ha2⟩ := h
        subst hs1 ha2
        exact ⟨by rw [memcpyUnaligned_length, List.length_replicate], rfl⟩
      · simp [lmAssert, hle]
    · intro h0 h1
      have hv0 : (2147483648 : Int) ≤ (v : Int) := by
        have : 2147483648 ≤ v := by simpa using h0
        omega
      have hv1 : (v : Int) < 4294967296 := by
        have : v < 4294967296 := by simpa using h1
        omega
      have hi : toInt32 (v : Int) = (v : Int) - 4294967296 := by
        unfold toInt32
        omega
      have hne : toInt32 (v : Int) ≠ 0 := by rw [hi]; omega
      have hu : intToUInt ((v : Int) - 4294967296) = v := by
        unfold intToUInt
        have : ((v : Int) - 4294967296) % 4294967296 = (v : Int) := by omega
        rw [this]
        simp
      rw [readString_after_header w bigEndian fill a a1 v hread hne, hi, hu]
      by_cases hle : (a1._position + v) % UINT_RANGE ≤ a1._data.length
      · simp [lmAssert, hle]
      · simp [lmAssert, hle]

theorem readCount_eq (size pos n : Nat) (length : Int) (hlen : 0 ≤ length)
    (hpos : pos ≤ size) (hsrc : size < 2147483648)
    (hn : n = min (if length = 0 then size else length.toNat) (size - pos)) :
    (if decide (((pos : Int) + if length = 0 then toInt32 (size : Int) else length)
          > (size : Int)) = true
      then toInt32 ((size : Int) - (pos : Int))
      else if length = 0 then toInt32 (size : Int) else length) = (n : Int) := by
  rw [toInt32_of_nonneg_lt (size : Int) (by omega) (by omega),
    toInt32_of_nonneg_lt ((size : Int) - (pos : Int)) (by omega) (by omega)]
  simp only [decide_eq_true_eq]
  subst hn
  by_cases h0 : length = 0
  · simp only [h0, if_true]
    split_ifs <;> omega
  · simp only [h0, if_false]
    split_ifs <;> omega

theorem readOffset_eq (dsize c : Nat) (offset : Int) (hdsz : dsize < 2147483648)
    (hc : c = (utClamp offset 0 (dsize : Int)).toNat) :
    utClamp (if offset < 0 then 0 else offset) 0 (toInt32 (dsize : Int)) = (c : Int)
      ∧ c ≤ dsize := by
  rw [toInt32_of_nonneg_lt (dsize : Int) (by omega) (by omega)]
  subst hc
  unfold utClamp
  split_ifs <;> omega

theorem readBytes_bounds (w n c pos size dsize : Nat) (hw : 32 ≤ w) (hpos : pos ≤ size)
    (hsrc : size < 2147483648) (hdsz : dsize < 2147483648) (hnle : n ≤ size - pos)
    (hc2 : c ≤ dsize) :
    toInt32 (c : Int) = (c : Int) ∧ intToUInt ((c : Int) + (n : Int)) = c + n ∧
      intToUInt (n : Int) = n ∧ intToSizeT w (n : Int) = n ∧
      (pos + n) % UINT_RANGE = pos + n := by
  refine ⟨toInt32_of_nonneg_lt _ (by omega) (by omega), ?_, ?_, ?_, ?_⟩
  · rw [intToUInt_of_nonneg_lt _ (by omega) (by omega)]
    omega
  · rw [intToUInt_of_nonneg_lt _ (by omega) (by omega)]
    omega
  · rw [intToSizeT_of_nonneg_lt w _ (by omega) (by omega) hw]
    omega
  · apply Nat.mod_eq_of_lt
    unfold UINT_RANGE
    omega

/-- The call `readBytes` in closed form, for a destination that is another
array than the source and sizes that an `int` holds. -/
theorem readBytes_eq (w : Nat) (fill : Nat → Nat) (objs : Nat → utByteArray)
    (this dst : Nat) (offset length : Int) (n c : Nat)
    (hw : 32 ≤ w) (hdst : dst ≠ 0) (hthis : this ≠ 0) (hne : dst ≠ this) (hlen : 0 ≤ length)
    (hpos : (objs this)._position ≤ (objs this)._data.length)
    (hsrc : (objs this)._data.length < 2147483648)
    (hdsz : (objs dst)._data.length < 2147483648)
    (hn : n = min (if length = 0 then (objs this)._data.length else length.toNat)
      ((objs this)._data.length - (objs this)._position))
    (hc : c = (utClamp offset 0 ((objs dst)._data.length : Int)).toNat) :
    utByteArray.readBytes w fill objs this dst offset length
      = some ((n : Int),
          Function.update
            (Function.update objs dst
              (utByteArray.mk
                (memcpyUnaligned
                  (if (objs dst)._data.length < c + n
                    then utArray.resize fill (objs dst)._data (c + n) else (objs dst)._data)
                  c (fun i => byteAt fill (objs this)._data ((objs this)._position + i)) n)
                (objs dst)._position))
            this
            (utByteArray.mk (objs this)._data ((objs this)._position + n))) := by
  have hn1 := readCount_eq _ _ n length hlen hpos hsrc hn
  obtain ⟨hc1, hc2⟩ := readOffset_eq _ c offset hdsz hc
  have hnle : n ≤ (objs this)._data.length - (objs this)._position := by
    rw [hn]; exact Nat.min_le_right _ _
  obtain ⟨hoff, hu, hun, hs, hmod⟩ := readBytes_bounds w n c _ _ _ hw hpos hsrc hdsz hnle hc2
  have hneg : ¬ ((n : Int) < 0) := Int.not_lt.mpr (Int.ofNat_nonneg n)
  have hguard : ¬ ((c : Int) < 0 ∨ ((objs this)._position : Int) < 0) := by
    rintro (h | h)
    · exact absurd h (Int.not_lt.mpr (Int.ofNat_nonneg c))
    · exact absurd h (Int.not_lt.mpr (Int.ofNat_nonneg _))
  unfold utByteArray.readBytes
  simp only [utByteArray.copyBytesInternal, hdst, hthis, or_self, if_false, not_lt.mpr hlen,
    if_true, hn1, hc1, hoff, ite_self, hguard]
  rw [if_neg (fun h => hneg h.2)]
  by_cases hg : (objs dst)._data.length < c + n
  · have hg1 : (c : Int) + (n : Int) > ((objs dst)._data.length : Int) := by
      exact_mod_cast hg
    simp only [hg1, hg, decide_True, if_true, Function.update_same,
      Function.update_noteq (Ne.symm hne), hu, hun, hs, hmod, memcpy, Int.toNat_ofNat,
      Function.update_idem]
  · have hg1 : ¬ ((c : Int) + (n : Int) > ((objs dst)._data.length : Int)) := by
      intro h
      exact hg (by exact_mod_cast h)
    simp only [hg1, hg, decide_False, Bool.false_eq_true, if_false, Function.update_same,
      Function.update_noteq (Ne.symm hne), hu, hun, hs, hmod, memcpy, Int.toNat_ofNat]

theorem byteAt_of_lt (fill : Nat → Nat) (l : List Nat) (i : Nat) (hi : i < l.length) :
    some (byteAt fill l i) = l[i]? := by
  unfold byteAt
  rw [List.getD_eq_getElem?_getD, List.getElem?_eq_getElem hi]
  rfl

/-- The destination bytes after the copy of `readBytes`: the copied span holds
the source bytes from the source position on, every other byte is as before. -/
theorem copied_getElem? (fill : Nat → Nat) (d s : List Nat) (c n pos j : Nat)
    (hc : c ≤ d.length) (hp : pos + n ≤ s.length) :
    (memcpyUnaligned (if d.length < c + n then utArray.resize fill d (c + n) else d) c
        (fun i => byteAt fill s (pos + i)) n)[j]?
      = if c ≤ j ∧ j < c + n then s[pos + (j - c)]? else d[j]? := by
  have hfit : c + n ≤ (if d.length < c + n then utArray.resize fill d (c + n) else d).length := by
    split_ifs with h
    · rw [utArray_resize_length]
    · omega
  rw [memcpyUnaligned_getElem? _ _ _ _ _ hfit]
  by_cases hj : c ≤ j ∧ j < c + n
  · rw [if_pos hj, if_pos hj]
    exact byteAt_of_lt fill s _ (by omega)
  · rw [if_neg hj, if_neg hj]
    split_ifs with h
    · by_cases hjc : j < c
      · exact utArray_resize_getElem? fill d (c + n) j (by omega)
      · rw [List.getElem?_eq_none (by rw [utArray_resize_length]; omega),
          List.getElem?_eq_none (by omega)]
    · rfl

theorem copied_length (fill : Nat → Nat) (d : List Nat) (src : Nat → Nat) (c n : Nat) :
    (memcpyUnaligned (if d.length < c + n then utArray.resize fill d (c + n) else d) c
        src n).length = max d.length (c + n) := by
  rw [memcpyUnaligned_length]
  split_ifs with h
  · rw [utArray_resize_length]
    omega
  · omega

/-- The value `readBytes(dst, 0, 0)` returns for a source of `2 ^ 31` bytes at
position 0 and an empty destination: the size as an `int`. -/
theorem readBytes_int_size (w : Nat) (fill : Nat → Nat) (objs : Nat → utByteArray)
    (this dst : Nat) (hdst : dst ≠ 0) (hthis : this ≠ 0)
    (hsz : (objs this)._data.length = 2147483648) (hp : (objs this)._position = 0)
    (hd : (objs dst)._data.length = 0) :
    (utByteArray.readBytes w fill objs this dst 0 0).map Prod.fst = some (-2147483648) := by
  have hl : toInt32 ((2147483648 : Nat) : Int) = -2147483648 := by decide
  have hz : toInt32 ((0 : Nat) : Int) = 0 := by decide
  have hc : utClamp 0 0 0 = 0 := by decide
  have e1 : ¬ (((0 : Nat) : Int) + -2147483648 > ((2147483648 : Nat) : Int)) := by decide
  have e2 : ¬ ((0 : Int) + -2147483648 > ((0 : Nat) : Int)) := by decide
  have e3 : ¬ (((0 : Nat) : Int) < 0) := by decide
  unfold utByteArray.readBytes
  simp only [utByteArray.copyBytesInternal, hdst, hthis, hsz, hp, hd, hl, hz, hc, or_self,
    if_false, if_true, lt_irrefl, e1, e2, e3, decide_False, Bool.false_eq_true, false_and,
    false_or, Option.map_some']

/-- C25, against the claim as stated. First, `readBytes` may be handed the
array it is called on as destination: with the array `10 .. 17` at position 2,
`readBytes(this, 4, 2)` copies two bytes to offset 4 and returns 2, and the
position of the destination, which is the source, has gone from 2 to 4.
Second, sizes are handled as `int`: on a source of `2 ^ 31` bytes at position
0, `readBytes(dst, 0, 0)` into an empty array takes the size for the length,
which is `-2 ^ 31` as an `int`, and returns that instead of `2 ^ 31`. -/
theorem C25_readBytes_counterexample :
    ((1 : Nat) ≠ 0 ∧ (0 : Int) ≤ 2 ∧
      (sampleObjects 1)._position ≤ (sampleObjects 1)._data.length ∧
      (utByteArray.readBytes 64 (fun _ => 0xEE) sampleObjects 1 1 4 2).map Prod.fst
        = some 2 ∧
      (utByteArray.readBytes 64 (fun _ => 0xEE) sampleObjects 1 1 4 2).map (fun r => r.2 1)
        = some { _data := [10, 11, 12, 13, 12, 13, 16, 17], _position := 4 } ∧
      (utByteArray.readBytes 64 (fun _ => 0xEE) sampleObjects 1 1 4 2).map
          (fun r => (r.2 1)._position)
        ≠ some (sampleObjects 1)._position) ∧
    ((2 : Nat) ≠ 0 ∧ (0 : Int) ≤ 0 ∧
      (bigObjects 1)._position ≤ (bigObjects 1)._data.length ∧
      (bigObjects 1)._data.length = 2147483648 ∧
      (utByteArray.readBytes 64 (fun _ => 0xEE) bigObjects 1 2 0 0).map Prod.fst
        = some (-2147483648)) := by
  have h1 : bigObjects 1 = utByteArray.mk (List.replicate 2147483648 0) 0 := rfl
  have hsz : (bigObjects 1)._data.length = 2147483648 := by
    simp only [h1, List.length_replicate]
  have hp : (bigObjects 1)._position = 0 := rfl
  have hd : (bigObjects 2)._data.length = 0 := rfl
  refine ⟨by decide, by decide, by decide, ?_, hsz, ?_⟩
  · rw [hsz, hp]
    exact Nat.zero_le _
  · exact readBytes_int_size 64 _ bigObjects 1 2 (by decide) (by decide) hsz hp hd

/-- C25 (amended): `readBytes(dst, offset, length)` with a non-null `dst` that
is another array than the source, `length >= 0`, source position at most the
source size and both sizes below `2^31`. It returns `n = min(L, size -
position)`, where `L` is `length`, or the source size when `length` is 0. The
source position advances by `n` and stays at most the size; the source bytes
and the destination position are unchanged. The destination has `max(dst size,
c + n)` bytes, which is at least `c + n`, with `c = clamp(offset, 0, dst
size)`: bytes `c .. c + n - 1` are the source bytes from the old position on,
every other byte is as before. No other array changes, and the outcome does not
depend on any byte outside the two arrays. -/
theorem C25_readBytes (w : Nat) (fill : Nat → Nat) (objs : Nat → utByteArray)
    (this dst : Nat) (offset length : Int) (n c : Nat)
    (hw : 32 ≤ w) (hdst : dst ≠ 0) (hthis : this ≠ 0) (hne : dst ≠ this) (hlen : 0 ≤ length)
    (hpos : (objs this)._position ≤ (objs this)._data.length)
    (hsrc : (objs this)._data.length < 2147483648)
    (hdsz : (objs dst)._data.length < 2147483648)
    (hn : n = min (if length = 0 then (objs this)._data.length else length.toNat)
      ((objs this)._data.length - (objs this)._position))
    (hc : c = (utClamp offset 0 ((objs dst)._data.length : Int)).toNat) :
    ∃ out : Nat → utByteArray,
      utByteArray.readBytes w fill objs this dst offset length = some ((n : Int), out) ∧
      (out this)._position = (objs this)._position + n ∧
      (objs this)._position + n ≤ (objs this)._data.length ∧
      (out this)._data = (objs this)._data ∧
      (out dst)._position = (objs dst)._position ∧
      c + n ≤ (out dst)._data.length ∧
      (out dst)._data.length = max (objs dst)._data.length (c + n) ∧
      (∀ j, (out dst)._data[j]?
        = if c ≤ j ∧ j < c + n then (objs this)._data[(objs this)._position + (j - c)]?
          else (objs dst)._data[j]?) ∧
      (∀ q, q ≠ this → q ≠ dst → out q = objs q) ∧
      (∀ fill2, utByteArray.readBytes w fill2 objs this dst offset length
        = some ((n : Int), out)) := by
  have hnle : (objs this)._position + n ≤ (objs this)._data.length := by
    have : n ≤ (objs this)._data.length - (objs this)._position := by
      rw [hn]; exact Nat.min_le_right _ _
    omega
  obtain ⟨_, hc2⟩ := readOffset_eq _ c offset hdsz hc
  have hdata : ∀ fill2, memcpyUnaligned
        (if (objs dst)._data.length < c + n
          then utArray.resize fill2 (objs dst)._data (c + n) else (objs dst)._data)
        c (fun i => byteAt fill2 (objs this)._data ((objs this)._position + i)) n
      = memcpyUnaligned
        (if (objs dst)._data.length < c + n
          then utArray.resize fill (objs dst)._data (c + n) else (objs dst)._data)
        c (fun i => byteAt fill (objs this)._data ((objs this)._position + i)) n := by
    intro fill2
    apply List.ext_getElem?
    intro j
    rw [copied_getElem? fill2 _ _ c n _ j hc2 hnle, copied_getElem? fill _ _ c n _ j hc2 hnle]
  refine ⟨_, readBytes_eq w fill objs this dst offset length n c hw hdst hthis hne hlen hpos
    hsrc hdsz hn hc, ?_⟩
  simp only [Function.update_same, Function.update_noteq hne]
  refine ⟨trivial, hnle, trivial, trivial, ?_, ?_, ?_, ?_, ?_⟩
  · rw [copied_length]
    omega
  · exact copied_length _ _ _ _ _
  · intro j
    exact copied_getElem? fill _ _ c n _ j hc2 hnle
  · intro q hq1 hq2
    rw [Function.update_noteq hq1, Function.update_noteq hq2]
  · intro fill2
    rw [readBytes_eq w fill2 objs this dst offset length n c hw hdst hthis hne hlen hpos hsrc
      hdsz hn hc, hdata fill2]

theorem C25_readBytes_witness :
    (32 ≤ 64 ∧ (2 : Nat) ≠ 0 ∧ (1 : Nat) ≠ 0 ∧ (2 : Nat) ≠ 1 ∧ (0 : Int) ≤ 3 ∧
      (sampleObjects 1)._position ≤ (sampleObjects 1)._data.length ∧
      (sampleObjects 1)._data.length < 2147483648 ∧
      (sampleObjects 2)._data.length < 2147483648 ∧
      3 = min (if (3 : Int) = 0 then (sampleObjects 1)._data.length else (3 : Int).toNat)
        ((sampleObjects 1)._data.length - (sampleObjects 1)._position) ∧
      2 = (utClamp 2 0 ((sampleObjects 2)._data.length : Int)).toNat) ∧
    (∃ out : Nat → utByteArray,
      utByteArray.readBytes 64 (fun _ => 0xEE) sampleObjects 1 2 2 3
        = some (((3 : Nat) : Int), out) ∧
      (out 1)._position = (sampleObjects 1)._position + 3 ∧
      (sampleObjects 1)._position + 3 ≤ (sampleObjects 1)._data.length ∧
      (out 1)._data = (sampleObjects 1)._data ∧
      (out 2)._position = (sampleObjects 2)._position ∧
      2 + 3 ≤ (out 2)._data.length ∧
      (out 2)._data.length = max (sampleObjects 2)._data.length (2 + 3) ∧
      (∀ j, (out 2)._data[j]?
        = if 2 ≤ j ∧ j < 2 + 3
          then (sampleObjects 1)._data[(sampleObjects 1)._position + (j - 2)]?
          else (sampleObjects 2)._data[j]?) ∧
      (∀ q, q ≠ 1 → q ≠ 2 → out q = sampleObjects q) ∧
      (∀ fill2, utByteArray.readBytes 64 fill2 sampleObjects 1 2 2 3
        = some (((3 : Nat) : Int), out))) :=
  ⟨⟨by decide, by decide, by decide, by decide, by decide, by decide, by decide, by decide,
      by decide, by decide⟩,
    C25_readBytes 64 (fun _ => 0xEE) sampleObjects 1 2 2 3 3 2
      (by decide) (by decide) (by decide) (by decide) (by decide) (by decide) (by decide)
      (by decide) (by decide) (by decide)⟩

end Loom
